import Mathlib

/-!
Verification of the go-forwarder request-dispatch engine: rule language and
evaluator, routing table with rebuild-on-error semantics, and the protocol
dispatch paths (HTTP no-match response, WebSocket classification, CONNECT
through an upstream proxy, outbound HTTP request construction).

Go strings are modelled as Lean `String` (byte strings of ASCII characters in
all inputs of interest); slicing and the `strings` package helpers are
modelled by structurally recursive functions over `String.data`.  The Go
`regexp` package is external to the repository, so the development is
parameterized by an abstract compile check `rc : String → Bool` (does the
pattern compile) and an abstract match function `rm : String → String → Bool`
(does the compiled pattern find a match in the value).
-/

instance {ε α : Type} [DecidableEq ε] [DecidableEq α] : DecidableEq (Except ε α) := fun x y =>
  match x, y with
  | .ok a, .ok b =>
      if h : a = b then isTrue (by rw [h])
      else isFalse (by intro hc; cases hc; exact h rfl)
  | .error a, .error b =>
      if h : a = b then isTrue (by rw [h])
      else isFalse (by intro hc; cases hc; exact h rfl)
  | .ok _, .error _ => isFalse (by intro hc; cases hc)
  | .error _, .ok _ => isFalse (by intro hc; cases hc)

/-- Characters treated as whitespace by `parser.skipWhitespace`
(space, tab, newline, carriage return). -/
def isWS (c : Char) : Bool :=
  c == ' ' || c == '\t' || c == '\n' || c == '\r'

/-- Model of `strings.HasPrefix` / `parser.matchString` on character lists. -/
def hasPre : List Char → List Char → Bool
  | [], _ => true
  | _ :: _, [] => false
  | a :: as, b :: bs => a == b && hasPre as bs

/-- Model of `strings.HasSuffix` on character lists. -/
def hasSuf (suf l : List Char) : Bool :=
  hasPre suf.reverse l.reverse

/-- Model of `strings.Index(host, ":")` followed by `host[:idx]`:
the part of the string before the first colon (the whole string when
there is no colon). -/
def cutAtFirstColon (s : String) : String :=
  ⟨s.data.takeWhile (fun c => c ≠ ':')⟩

/-- Model of `strings.TrimSpace` over the parser's whitespace set
(ASCII whitespace suffices for every string this development touches). -/
def goTrim (s : String) : String :=
  ⟨((s.data.dropWhile isWS).reverse.dropWhile isWS).reverse⟩

/-- Model of `strings.Split(value, ",")`: split at every comma; the
empty string yields a single empty part. -/
def splitCommaAux (acc : List Char) : List Char → List String
  | [] => [⟨acc.reverse⟩]
  | c :: rest =>
      if c = ',' then ⟨acc.reverse⟩ :: splitCommaAux [] rest
      else splitCommaAux (c :: acc) rest

/-- String-level comma split. -/
def splitComma (s : String) : List String :=
  splitCommaAux [] s.data

/-- Model of `strings.ToUpper` (character-wise uppercasing). -/
def upperStr (s : String) : String :=
  ⟨s.data.map Char.toUpper⟩

/-- First value for a key in a parsed query (`url.Values.Get`). -/
def queryGet (q : List (String × String)) (k : String) : String :=
  match q.find? (fun e => e.1 = k) with
  | some e => e.2
  | none => ""

/-- Canonical MIME header key (`textproto.CanonicalMIMEHeaderKey`):
uppercase at the start and after each hyphen, lowercase elsewhere. -/
def canonKeyAux : Bool → List Char → List Char
  | _, [] => []
  | up, c :: rest =>
      (if up then c.toUpper else c.toLower) :: canonKeyAux (c = '-') rest

/-- Canonical MIME header key as a string function. -/
def canonKey (s : String) : String :=
  ⟨canonKeyAux true s.data⟩

/-- An `http.Header`: a finite map from canonical keys to value lists,
modelled as an association list. -/
abbrev Header : Type := List (String × List String)

/-- Association-list lookup by exact key (Go map indexing). -/
def lookupVals : Header → String → List String
  | [], _ => []
  | e :: rest, ck => if e.1 = ck then e.2 else lookupVals rest ck

/-- All values stored under a key (`http.Header` map indexing with the
canonicalized key). -/
def headerValues (h : Header) (k : String) : List String :=
  lookupVals h (canonKey k)

/-- Model of `http.Header.Get`: the first stored value for the
canonicalized key, or the empty string. -/
def headerGet (h : Header) (k : String) : String :=
  match headerValues h k with
  | [] => ""
  | v :: _ => v

/-- Model of `http.Header.Add`: append a value to the entry of the
canonicalized key, creating the entry when absent. -/
def headerAddC (ck v : String) : Header → Header
  | [] => [(ck, [v])]
  | (k0, vs) :: rest =>
      if k0 = ck then (k0, vs ++ [v]) :: rest
      else (k0, vs) :: headerAddC ck v rest

/-- Model of `http.Header.Add` including key canonicalization. -/
def headerAdd (h : Header) (k v : String) : Header :=
  headerAddC (canonKey k) v h

/-- An inbound `*http.Request`, restricted to the fields the dispatch
engine reads. -/
structure Request where
  method : String
  host : String
  urlHost : String
  path : String
  requestURI : String
  query : List (String × String)
  headers : Header
  tls : Bool
deriving DecidableEq

/-- The predicate tree (`router.Rule` and the leaf matcher structs).
The `headerRegex` leaf carries the compiled pattern's source text; its
evaluation is delegated to the abstract match function `rm`. -/
inductive Rule where
  | host (pattern : String)
  | pathExact (path : String)
  | pathPre (pre : String)
  | method (methods : List String)
  | headerEq (key value : String)
  | headerRegex (key pattern : String)
  | queryEq (key value : String)
  | and (l r : Rule)
  | or (l r : Rule)
  | not (inner : Rule)
deriving DecidableEq, Repr

/-- Model of `HostMatcher.Match`: effective host is `req.Host`, else
`req.URL.Host`, truncated at the first colon; then an exact comparison,
then the `*.` wildcard comparison. -/
def hostMatch (pattern : String) (req : Request) : Bool :=
  let host0 := if req.host = "" then req.urlHost else req.host
  let host := cutAtFirstColon host0
  if pattern = host then true
  else if hasPre "*.".data pattern.data then
    let domain : String := ⟨pattern.data.drop 2⟩
    hasSuf ("." ++ domain).data host.data || host = domain
  else false

/-- Model of `Rule.Match` over the predicate tree, with the abstract
regex match function `rm`. -/
def Rule.eval (rm : String → String → Bool) : Rule → Request → Bool
  | .host p, req => hostMatch p req
  | .pathExact p, req => req.path == p
  | .pathPre p, req => hasPre p.data req.path.data
  | .method ms, req =>
      ms.any (fun allowed => upperStr allowed == upperStr req.method)
  | .headerEq k v, req => headerGet req.headers k == v
  | .headerRegex k p, req =>
      let v := headerGet req.headers k
      if v = "" then false else rm p v
  | .queryEq k v, req => queryGet req.query k == v
  | .and a b, req => a.eval rm req && b.eval rm req
  | .or a b, req => a.eval rm req || b.eval rm req
  | .not a, req => !(a.eval rm req)

/-- Model of `parser.skipWhitespace`: drop leading whitespace. -/
def skipWS : List Char → List Char
  | [] => []
  | c :: rest => if isWS c then skipWS rest else c :: rest

/-- Characters allowed to continue a matcher name: the name scan in
`parser.parseMatcher` stops only at an opening brace or a space. -/
def isNameChar (c : Char) : Bool :=
  c ≠ '{' && c ≠ ' '

/-- Model of the brace-depth value scan in `parser.parseMatcher`:
starting after the opening brace at the given depth, return the value
text and the input remaining after the matching closing brace, or
`none` when the braces never rebalance. -/
def scanValue (depth : Nat) : List Char → Option (List Char × List Char)
  | [] => none
  | c :: rest =>
      let d := if c = '{' then depth + 1 else if c = '}' then depth - 1 else depth
      if d = 0 then some ([], rest)
      else
        match scanValue d rest with
        | none => none
        | some (v, r) => some (c :: v, r)

/-- Model of `strings.SplitN(value, "=", 2)` restricted to the success
shape the parser needs: the text before the first equals sign and the
text after it, or `none` when there is no equals sign. -/
def splitEq2 (s : String) : Option (String × String) :=
  match s.data.dropWhile (fun c => c ≠ '=') with
  | [] => none
  | _ :: rest => some (⟨s.data.takeWhile (fun c => c ≠ '=')⟩, ⟨rest⟩)

/-- Model of `parser.createMatcher`, with the abstract regex compile
check `rc` standing in for `regexp.Compile` succeeding. -/
def createMatcher (rc : String → Bool) (name value : String) : Except String Rule :=
  if name = "Host" then .ok (.host value)
  else if name = "Path" then .ok (.pathExact value)
  else if name = "PathPrefix" then .ok (.pathPre value)
  else if name = "Method" then
    .ok (.method ((splitComma value).map goTrim))
  else if name = "Header" then
    match splitEq2 value with
    | none => .error "invalid Header matcher format, expected Key=Value"
    | some (k, v) => .ok (.headerEq (goTrim k) (goTrim v))
  else if name = "HeaderRegex" then
    match splitEq2 value with
    | none => .error "invalid HeaderRegex matcher format, expected Key=Pattern"
    | some (k, v) =>
        if rc (goTrim v) then .ok (.headerRegex (goTrim k) (goTrim v))
        else .error "invalid regex pattern"
  else if name = "Query" then
    match splitEq2 value with
    | none => .error "invalid Query matcher format, expected Key=Value"
    | some (k, v) => .ok (.queryEq (goTrim k) (goTrim v))
  else .error ("unknown matcher: " ++ name)

/-- Model of `parser.matchChar` at the current position. -/
def matchCharL (c : Char) : List Char → Bool
  | [] => false
  | d :: _ => d == c

/-- Model of `parser.parseMatcher`: skip whitespace, scan the matcher
name up to a brace or space, skip whitespace, require the opening
brace, scan the brace-balanced value, and build the matcher. -/
def parseMatcherL (rc : String → Bool) (input : List Char) : Except String (Rule × List Char) :=
  let i := skipWS input
  let name := i.takeWhile isNameChar
  let i1 := i.dropWhile isNameChar
  if name = [] then .error "expected matcher name"
  else
    let i2 := skipWS i1
    if matchCharL '{' i2 then
      match scanValue 1 (i2.drop 1) with
      | none => .error "unmatched braces"
      | some (value, rest) =>
          match createMatcher rc ⟨name⟩ ⟨value⟩ with
          | .error e => .error e
          | .ok r => .ok (r, rest)
    else .error "expected open brace after matcher name"

/- The recursive descent of `parser.parseOr` / `parseAnd` /
`parseUnary`, with a fuel argument for termination; `ParseRule` supplies
fuel that the recursion can never exhaust. -/
mutual

/-- Model of `parser.parseOr`. -/
def parseOrL (rc : String → Bool) : Nat → List Char → Except String (Rule × List Char)
  | 0, _ => .error "out of fuel"
  | f + 1, input =>
      match parseAndL rc f input with
      | .error e => .error e
      | .ok (left, rest) => parseOrLoop rc f left rest

def parseOrLoop (rc : String → Bool) : Nat → Rule → List Char → Except String (Rule × List Char)
  | 0, _, _ => .error "out of fuel"
  | f + 1, left, input =>
      let i := skipWS input
      if hasPre "||".data i then
        match parseAndL rc f (skipWS (i.drop 2)) with
        | .error e => .error e
        | .ok (right, rest) => parseOrLoop rc f (.or left right) rest
      else .ok (left, i)

def parseAndL (rc : String → Bool) : Nat → List Char → Except String (Rule × List Char)
  | 0, _ => .error "out of fuel"
  | f + 1, input =>
      match parseUnaryL rc f input with
      | .error e => .error e
      | .ok (left, rest) => parseAndLoop rc f left rest

def parseAndLoop (rc : String → Bool) : Nat → Rule → List Char → Except String (Rule × List Char)
  | 0, _, _ => .error "out of fuel"
  | f + 1, left, input =>
      let i := skipWS input
      if hasPre "&&".data i then
        match parseUnaryL rc f (skipWS (i.drop 2)) with
        | .error e => .error e
        | .ok (right, rest) => parseAndLoop rc f (.and left right) rest
      else .ok (left, i)

def parseUnaryL (rc : String → Bool) : Nat → List Char → Except String (Rule × List Char)
  | 0, _ => .error "out of fuel"
  | f + 1, input =>
      let i := skipWS input
      if matchCharL '!' i then
        match parseUnaryL rc f (skipWS (i.drop 1)) with
        | .error e => .error e
        | .ok (r, rest) => .ok (.not r, rest)
      else if matchCharL '(' i then
        match parseOrL rc f (skipWS (i.drop 1)) with
        | .error e => .error e
        | .ok (r, rest) =>
            let rest1 := skipWS rest
            if matchCharL ')' rest1 then .ok (r, rest1.drop 1)
            else .error "expected close paren"
      else parseMatcherL rc i

end

/-- Model of `strings.TrimSpace` over the parser's whitespace set. -/
def trimL (s : List Char) : List Char :=
  ((s.dropWhile isWS).reverse.dropWhile isWS).reverse

/-- Model of `router.ParseRule`: trim the input, run the descent from
`parseOr`, and discard whatever input the descent did not consume.  The
fuel `3 * length + 8` strictly dominates the recursion depth of the Go
parser on any input, so the fuel guard is unreachable. -/
def parseRuleL (rc : String → Bool) (s : List Char) : Except String Rule :=
  let t := trimL s
  match parseOrL rc (3 * t.length + 8) t with
  | .error e => .error e
  | .ok (r, _) => .ok r

/-- String-level entry point of the rule parser. -/
def ParseRule (rc : String → Bool) (s : String) : Except String Rule :=
  parseRuleL rc s.data

example : ParseRule (fun _ => true) "Host{a}" = .ok (.host "a") := by decide

example : ParseRule (fun _ => true) "Host{api.example.com} && PathPrefix{/v1}" =
    .ok (.and (.host "api.example.com") (.pathPre "/v1")) := by decide

example : ParseRule (fun _ => true) "!Path{/health} && Method{GET,POST}" =
    .ok (.and (.not (.pathExact "/health")) (.method ["GET", "POST"])) := by decide

example : ParseRule (fun _ => true) "Host{a} || Path{/b} && Method{GET}" =
    .ok (.or (.host "a") (.and (.pathExact "/b") (.method ["GET"]))) := by decide

example : ParseRule (fun _ => true) "(Host{a} || Path{/b}) && Method{GET}" =
    .ok (.and (.or (.host "a") (.pathExact "/b")) (.method ["GET"])) := by decide

example : ParseRule (fun _ => true) "Host {a}" = .ok (.host "a") := by decide

example : ParseRule (fun _ => true) "Host\t{a}" = .error "unknown matcher: Host\t" := by decide

example : ParseRule (fun _ => true) "Host{a} Host{b}" = .ok (.host "a") := by decide

example : ParseRule (fun _ => true) "Host{a} | Host{b}" = .ok (.host "a") := by decide

/-- A configured forwarding node (`config.Node`): name, backend address,
optional filter host, optional matcher rule, optional upstream proxy URL
(empty string for "no proxy", as in the Go struct). -/
structure Node where
  name : String
  addr : String
  filterHost : Option String
  matcherRule : Option String
  proxy : String
deriving DecidableEq, Repr

/-- A configured service, restricted to the forwarder's node list
(`config.Service.Forwarder.Nodes`). -/
structure Service where
  name : String
  nodes : List Node
deriving DecidableEq, Repr

/-- A compiled route (`router.Route`). -/
structure Route where
  name : String
  rule : Rule
  node : Node
deriving DecidableEq, Repr

/-- Model of `Router.buildRoute`: a filter becomes a bare `HostMatcher`,
a matcher rule goes through `ParseRule`, and a node with neither is a
build error. -/
def buildRoute (rc : String → Bool) (node : Node) : Except String Route :=
  match node.filterHost with
  | some h => .ok ⟨node.name, .host h, node⟩
  | none =>
      match node.matcherRule with
      | some ruleStr =>
          match ParseRule rc ruleStr with
          | .error e => .error ("failed to parse rule: " ++ e)
          | .ok rule => .ok ⟨node.name, rule, node⟩
      | none => .error "node must have either filter or matcher"

/-- Routes of a single service, in node order, failing on the first bad
node. -/
def buildNodes (rc : String → Bool) : List Node → Except String (List Route)
  | [] => .ok []
  | n :: rest =>
      match buildRoute rc n with
      | .error e => .error ("failed to build route for node " ++ n.name ++ ": " ++ e)
      | .ok r =>
          match buildNodes rc rest with
          | .error e => .error e
          | .ok rs => .ok (r :: rs)

/-- The table built by `Router.UpdateRoutes`: services in configuration
order, nodes in order within each service, failing the whole build on
the first bad node. -/
def buildRoutes (rc : String → Bool) : List Service → Except String (List Route)
  | [] => .ok []
  | s :: rest =>
      match buildNodes rc s.nodes with
      | .error e => .error e
      | .ok a =>
          match buildRoutes rc rest with
          | .error e => .error e
          | .ok b => .ok (a ++ b)

/-- State transition of `Router.UpdateRoutes` on the router's `routes`
field: the new table replaces the old one only when the whole build
succeeds; on error the previous table stays and the error is reported. -/
def routerUpdateRoutes (rc : String → Bool) (routes : List Route) (services : List Service) :
    List Route × Option String :=
  match buildRoutes rc services with
  | .ok newRoutes => (newRoutes, none)
  | .error e => (routes, some e)

/-- Model of `Router.Match`: first route whose rule matches, else none. -/
def routerMatch (rm : String → String → Bool) (routes : List Route) (req : Request) :
    Option Node :=
  match routes.find? (fun route => route.rule.eval rm req) with
  | some route => some route.node
  | none => none

/-- Model of `isWebSocketUpgrade`: exact value comparisons against
"websocket" and "Upgrade" on the two headers. -/
def isWebSocketUpgrade (req : Request) : Bool :=
  headerGet req.headers "Upgrade" == "websocket" &&
    headerGet req.headers "Connection" == "Upgrade"

/-- An error response written by `handleNoMatch` / `handleError`:
status code, content type, and the fields of the JSON object body. -/
structure ErrorResponse where
  status : Nat
  contentType : String
  fields : List (String × String)
deriving DecidableEq, Repr

/-- Model of `Server.handleNoMatch`: 502, JSON content type, and the
error object echoing host, path and method. -/
def handleNoMatch (req : Request) : ErrorResponse :=
  { status := 502
  , contentType := "application/json"
  , fields :=
      [ ("error", "no matching route found")
      , ("host", req.host)
      , ("path", req.path)
      , ("method", req.method) ] }

/-- Outcome of `Server.ServeHTTP` dispatch, up to the point where a
relay or response begins. -/
inductive Dispatch where
  | connect : Dispatch
  | websocket : Dispatch
  | response : ErrorResponse → Dispatch
  | forwarded : Node → Dispatch
deriving DecidableEq, Repr

/-- Model of `Server.ServeHTTP` composed with `Server.handleHTTP`:
CONNECT first, then WebSocket upgrades, then route matching with the
no-match JSON response. -/
def serveHTTP (rm : String → String → Bool) (routes : List Route) (req : Request) : Dispatch :=
  if req.method = "CONNECT" then .connect
  else if isWebSocketUpgrade req then .websocket
  else
    match routerMatch rm routes req with
    | none => .response (handleNoMatch req)
    | some node => .forwarded node

/-- Model of `copyHeaders`: add every value of every entry of `src` to
`dst`, in entry order. -/
def copyHeaders (dst src : Header) : Header :=
  src.foldl (fun d e => e.2.foldl (fun d' v => headerAdd d' e.1 v) d) dst

/-- The backwards colon scan of `Forwarder.Forward` (lines 51 to 54):
starting from the end of the address, step left past non-colon
characters; the index where the scan stops, or `none` when it runs past
the front. -/
def lastColonScan (l : List Char) : Option Nat :=
  let k := (l.reverse.takeWhile (fun c => c ≠ ':')).length
  if k = l.length then none else some (l.length - 1 - k)

/-- Model of the Host-header computation in `Forwarder.Forward` (lines
48 to 59): start from `node.Addr`; when the address ends in an ASCII
digit, scan backwards for a colon and truncate there when the colon
index is positive. -/
def hostHeaderForAddr (addr : String) : String :=
  match addr.data.getLast? with
  | none => addr
  | some c =>
      if '0' ≤ c ∧ c ≤ '9' then
        match lastColonScan addr.data with
        | none => addr
        | some colonIdx =>
            if 0 < colonIdx then ⟨addr.data.take colonIdx⟩ else addr
      else addr

/-- Model of `Forwarder.buildTargetURL`. -/
def buildTargetURL (req : Request) (node : Node) : String :=
  (if req.tls then "https" else "http") ++ "://" ++ node.addr ++ req.requestURI

/-- The outbound request built by `Forwarder.Forward` before it is sent:
method and body stream come from the inbound request, headers are copied
into the fresh (empty) header map of `http.NewRequest`, and the Host
header is derived from the node address. -/
structure OutboundRequest where
  method : String
  url : String
  headers : Header
  hostHeader : String
deriving DecidableEq, Repr

/-- Model of the request-construction part of `Forwarder.Forward`. -/
def forwardRequest (req : Request) (node : Node) : OutboundRequest :=
  { method := req.method
  , url := buildTargetURL req node
  , headers := copyHeaders [] req.headers
  , hostHeader := hostHeaderForAddr node.addr }

/-- The CONNECT line written to the upstream proxy by
`connectThroughProxy` (the `fmt.Sprintf` at line 121). -/
def connectReqString (targetAddr : String) : String :=
  "CONNECT " ++ targetAddr ++ " HTTP/1.1\r\nHost: " ++ targetAddr ++ "\r\n\r\n"

/-- Model of the status check of `connectThroughProxy` on the bytes read
from the proxy (lines 136 to 141): require at least 12 bytes and the
bytes at offsets 9 to 11 to be exactly "200"; otherwise close and fail. -/
def proxyResponseCheck (response : String) : Except String Unit :=
  if response.data.length < 12 then
    .error ("proxy returned non-200 response: " ++ response)
  else if ((response.data.drop 9).take 3) = "200".data then .ok ()
  else .error ("proxy returned non-200 response: " ++ response)

example : hostHeaderForAddr "example.com:8080" = "example.com" := by decide

example : hostHeaderForAddr "example.com" = "example.com" := by decide

example : hostHeaderForAddr "::1" = ":" := by decide

example : hostHeaderForAddr ":8080" = ":8080" := by decide

example : proxyResponseCheck "HTTP/1.1 200 Connection Established\r\n\r\n" = .ok () := by decide

example : proxyResponseCheck "HTTP/1.1 403 Forbidden\r\n\r\n" =
    .error ("proxy returned non-200 response: " ++ "HTTP/1.1 403 Forbidden\r\n\r\n") := by decide

/-- A plain GET request used in concrete scenarios. -/
def plainGet (h : String) (p : String) : Request :=
  { method := "GET", host := h, urlHost := "", path := p, requestURI := p
  , query := [], headers := [], tls := false }

/-- Node A of scenario S4: rule `Host{a}`. -/
def nodeA : Node := ⟨"A", "10.0.0.1:8081", none, some "Host{a}", ""⟩

/-- Node B of scenario S4: the same rule `Host{a}`. -/
def nodeB : Node := ⟨"B", "10.0.0.2:8082", none, some "Host{a}", ""⟩

/-- The service holding nodes A then B. -/
def svcAB : Service := ⟨"svc", [nodeA, nodeB]⟩

/-- C10 -/
theorem parseRule_ignores_trailing_input :
    (∀ (rc : String → Bool) (s : String) (r : Rule) (rest : List Char),
        parseOrL rc (3 * (trimL s.data).length + 8) (trimL s.data) = .ok (r, rest) →
        ParseRule rc s = .ok r) ∧
    ParseRule (fun _ => true) "Host{a} Host{b}" = .ok (.host "a") ∧
    ParseRule (fun _ => true) "Host{a} | Host{b}" = .ok (.host "a") := by
  refine ⟨?_, by decide, by decide⟩
  intro rc s r rest h
  unfold ParseRule parseRuleL
  simp only []
  rw [h]

/-- C10 witness: on `Host{a} Host{b}` the descent stops after the first
matcher with the nonempty remainder `Host{b}` unconsumed, and `ParseRule`
still succeeds with the leading tree. -/
theorem parseRule_ignores_trailing_input_witness :
    ParseRule (fun _ => true) "Host{a} Host{b}" = .ok (.host "a") :=
  parseRule_ignores_trailing_input.1 (fun _ => true) "Host{a} Host{b}" (.host "a")
    "Host{b}".data (by decide)

/-- C5 -/
theorem no_match_yields_json_502 (rm : String → String → Bool) (routes : List Route)
    (req : Request) (h1 : req.method ≠ "CONNECT") (h2 : isWebSocketUpgrade req = false)
    (h3 : routerMatch rm routes req = none) :
    serveHTTP rm routes req =
      .response
        { status := 502
        , contentType := "application/json"
        , fields :=
            [ ("error", "no matching route found")
            , ("host", req.host)
            , ("path", req.path)
            , ("method", req.method) ] } := by
  unfold serveHTTP
  rw [if_neg h1, if_neg (by simp [h2]), h3]
  rfl

/-- C5 witness: a concrete GET against an empty table receives the 502
JSON response echoing host, path and method. -/
theorem no_match_yields_json_502_witness :
    serveHTTP (fun _ _ => false) [] (plainGet "example.com" "/x") =
      .response
        { status := 502
        , contentType := "application/json"
        , fields :=
            [ ("error", "no matching route found")
            , ("host", "example.com")
            , ("path", "/x")
            , ("method", "GET") ] } :=
  no_match_yields_json_502 (fun _ _ => false) [] (plainGet "example.com" "/x")
    (by decide) (by decide) (by decide)

/-- Unfolding the table lookup one route at a time. -/
theorem routerMatch_cons (rm : String → String → Bool) (r : Route) (rest : List Route)
    (req : Request) :
    routerMatch rm (r :: rest) req =
      if r.rule.eval rm req then some r.node else routerMatch rm rest req := by
  unfold routerMatch
  by_cases h : r.rule.eval rm req
  · simp [List.find?_cons, h]
  · simp [List.find?_cons, h]

/-- The lookup returns `none` exactly when no route's predicate holds. -/
theorem routerMatch_none_iff (rm : String → String → Bool) (routes : List Route)
    (req : Request) :
    routerMatch rm routes req = none ↔ ∀ rt ∈ routes, rt.rule.eval rm req = false := by
  unfold routerMatch
  cases hf : routes.find? (fun route => route.rule.eval rm req) with
  | none =>
      rw [List.find?_eq_none] at hf
      simpa using hf
  | some rt =>
      simp only []
      constructor
      · intro h; exact Option.noConfusion h
      · intro h
        have hmem := List.mem_of_find?_eq_some hf
        have hp := List.find?_some hf
        rw [h rt hmem] at hp
        exact Bool.noConfusion hp

/-- The lookup returns a node exactly when it belongs to the first route
whose predicate holds. -/
theorem routerMatch_some_iff (rm : String → String → Bool) (routes : List Route)
    (req : Request) (n : Node) :
    routerMatch rm routes req = some n ↔
      ∃ l1 route l2, routes = l1 ++ route :: l2 ∧ route.rule.eval rm req = true ∧
        n = route.node ∧ ∀ r ∈ l1, r.rule.eval rm req = false := by
  induction routes with
  | nil =>
      constructor
      · intro h; exact Option.noConfusion h
      · rintro ⟨l1, route, l2, heq, -, -, -⟩
        exact absurd heq (by simp)
  | cons r rest ih =>
      rw [routerMatch_cons]
      by_cases hr : r.rule.eval rm req
      · rw [if_pos hr]
        constructor
        · intro h
          exact ⟨[], r, rest, rfl, hr, (Option.some.inj h).symm, by intro x hx; cases hx⟩
        · rintro ⟨l1, route, l2, heq, hev, hn, hall⟩
          cases l1 with
          | nil =>
              cases heq
              simp [hn]
          | cons a l1t =>
              have ha : a = r := (List.cons.inj heq).1.symm
              have := hall a (List.mem_cons_self a l1t)
              rw [ha, hr] at this
              exact Bool.noConfusion this
      · rw [if_neg hr]
        rw [ih]
        constructor
        · rintro ⟨l1, route, l2, heq, hev, hn, hall⟩
          refine ⟨r :: l1, route, l2, by rw [heq, List.cons_append], hev, hn, ?_⟩
          intro x hx
          rcases List.mem_cons.mp hx with hx | hx
          · rw [hx]; exact Bool.eq_false_iff.mpr hr
          · exact hall x hx
        · rintro ⟨l1, route, l2, heq, hev, hn, hall⟩
          cases l1 with
          | nil =>
              cases heq
              exact absurd hev hr
          | cons a l1t =>
              have ha : a = r := (List.cons.inj heq).1.symm
              have ht : rest = l1t ++ route :: l2 := (List.cons.inj heq).2
              exact ⟨l1t, route, l2, ht, hev, hn, fun x hx =>
                hall x (List.mem_cons_of_mem a hx)⟩

/-- A list is a prefix of itself extended by anything. -/
theorem hasPre_append_self (l t : List Char) : hasPre l (l ++ t) = true := by
  induction l with
  | nil => rfl
  | cons c cs ih => simp [hasPre, ih]

/-- Characterization of the prefix check. -/
theorem hasPre_iff (s : List Char) : ∀ l : List Char, hasPre s l = true ↔ ∃ t, l = s ++ t := by
  induction s with
  | nil => intro l; simp [hasPre]
  | cons c cs ih =>
      intro l
      cases l with
      | nil =>
          constructor
          · intro h; exact absurd h (by simp [hasPre])
          · rintro ⟨t, ht⟩; exact absurd ht (by simp)
      | cons d ds =>
          simp only [hasPre, Bool.and_eq_true, beq_iff_eq, ih, List.cons_append,
            List.cons.injEq]
          constructor
          · rintro ⟨hcd, t, ht⟩
            exact ⟨t, hcd.symm, ht⟩
          · rintro ⟨t, hdc, ht⟩
            exact ⟨hdc.symm, t, ht⟩

/-- A list is a suffix of itself extended on the left. -/
theorem hasSuf_append_left (t s : List Char) : hasSuf s (t ++ s) = true := by
  unfold hasSuf
  rw [List.reverse_append]
  exact hasPre_append_self s.reverse t.reverse

/-- Two strings with the same character data are equal. -/
theorem string_eq_of_data_eq (s t : String) (h : s.data = t.data) : s = t := by
  cases s; cases t; cases h; rfl

/-- A nonempty list has a last element that belongs to it. -/
theorem getLast?_exists (l : List Char) (h : l ≠ []) :
    ∃ c, l.getLast? = some c ∧ c ∈ l := by
  cases l with
  | nil => exact absurd rfl h
  | cons a as =>
      exact ⟨(a :: as).getLast (by simp), List.getLast?_eq_getLast _ _, List.getLast_mem _⟩

/-- The request of scenario S2 extended: Host header `[::1]:443`. -/
def reqIPv6 : Request := plainGet "[::1]:443" "/"

/-- Effective host as claim C4 words it (spec-side definition, used only
to exhibit the counterexample): Host header, else URL authority, with a
trailing colon-and-digits port suffix removed when present. -/
def effectiveHostClaimC4 (req : Request) : String :=
  let h := if req.host = "" then req.urlHost else req.host
  let revPort := h.data.reverse.takeWhile (fun c => c ≠ ':')
  match h.data.reverse.dropWhile (fun c => c ≠ ':') with
  | [] => h
  | _ :: before =>
      if revPort ≠ [] ∧ revPort.all Char.isDigit then ⟨before.reverse⟩ else h

/-- C4 counterexample: for the non-wildcard pattern `[::1]` and a
request whose Host header is `[::1]:443`, the claim's effective host
(port suffix removed) is byte-equal to the pattern, so the claim
predicts a match, but the matcher truncates at the first colon and
returns false. -/
theorem host_pattern_port_strip_counterexample :
    effectiveHostClaimC4 reqIPv6 = "[::1]" ∧
    hasPre "*.".data "[::1]".data = false ∧
    hostMatch "[::1]" reqIPv6 = false := by
  refine ⟨by decide, by decide, by decide⟩

/-- C4 amended: the effective host is the Host header (else the URL
authority) truncated at the first colon; a wildcard pattern matches
exactly the domain or any dot-separated subdomain of it, and any other
pattern requires byte equality; the concrete `*.example.com` cases
behave as the claim states. -/
theorem host_pattern_match_amended (p : String) (req : Request) :
    (hostMatch p req =
      (let h := cutAtFirstColon (if req.host = "" then req.urlHost else req.host)
       let domain : String := ⟨p.data.drop 2⟩
       if hasPre "*.".data p.data then (h = domain || hasSuf ("." ++ domain).data h.data)
       else (p = h))) ∧
    hostMatch "*.example.com" (plainGet "a.example.com" "/") = true ∧
    hostMatch "*.example.com" (plainGet "example.com" "/") = true ∧
    hostMatch "*.example.com" (plainGet "aexample.com" "/") = false := by
  refine ⟨?_, by decide, by decide, by decide⟩
  unfold hostMatch
  simp only []
  set h := cutAtFirstColon (if req.host = "" then req.urlHost else req.host) with hh
  split_ifs with he hw hw
  · rcases (hasPre_iff "*.".data p.data).mp hw with ⟨t, ht⟩
    have hdom : ("." ++ (⟨p.data.drop 2⟩ : String)).data = '.' :: t := by
      rw [String.data_append, ht]
      rfl
    have hsuf : hasSuf ("." ++ (⟨p.data.drop 2⟩ : String)).data h.data = true := by
      rw [hdom, ← he, ht]
      exact hasSuf_append_left ['*'] ('.' :: t)
    rw [hsuf]
    simp
  · simp [he]
  · exact Bool.or_comm _ _
  · simp [he]

/-- C6 -/
theorem connect_proxy_requires_200 (addr minor code rest : String)
    (hm : minor.data.length = 1) (hc : code.data.length = 3) :
    connectReqString addr =
      "CONNECT " ++ addr ++ " HTTP/1.1\r\nHost: " ++ addr ++ "\r\n\r\n" ∧
    (proxyResponseCheck ("HTTP/1." ++ minor ++ " " ++ code ++ rest) = .ok () ↔
      code = "200") := by
  refine ⟨rfl, ?_⟩
  have hdata : ("HTTP/1." ++ minor ++ " " ++ code ++ rest).data =
      ("HTTP/1.".data ++ (minor.data ++ " ".data)) ++ (code.data ++ rest.data) := by
    simp [String.data_append]
  have hlen9 : ("HTTP/1.".data ++ (minor.data ++ " ".data)).length = 9 := by
    simp [hm]
  unfold proxyResponseCheck
  rw [hdata]
  have hlen : (("HTTP/1.".data ++ (minor.data ++ " ".data)) ++ (code.data ++ rest.data)).length =
      12 + rest.data.length := by
    simp [hm, hc]
    omega
  rw [hlen]
  rw [if_neg (by omega)]
  have hdrop : (("HTTP/1.".data ++ (minor.data ++ " ".data)) ++ (code.data ++ rest.data)).drop 9 =
      code.data ++ rest.data := by
    rw [← hlen9]
    exact List.drop_left _ _
  rw [hdrop]
  have htake : (code.data ++ rest.data).take 3 = code.data := by
    rw [← hc]
    exact List.take_left _ _
  rw [htake]
  by_cases hcd : code.data = "200".data
  · rw [if_pos hcd]
    simp [string_eq_of_data_eq code "200" hcd]
  · rw [if_neg hcd]
    constructor
    · intro hcontra; exact Except.noConfusion hcontra
    · intro hcontra
      exact absurd (by rw [hcontra]) hcd

/-- C6 witness: a well-formed `HTTP/1.1 200` response line passes the
check, at the concrete address of scenario S5. -/
theorem connect_proxy_requires_200_witness :
    proxyResponseCheck ("HTTP/1." ++ "1" ++ " " ++ "200" ++ " Connection Established\r\n\r\n") =
      .ok () ∧
    connectReqString "api.example.com:443" =
      "CONNECT " ++ "api.example.com:443" ++ " HTTP/1.1\r\nHost: " ++
        "api.example.com:443" ++ "\r\n\r\n" :=
  ⟨(connect_proxy_requires_200 "api.example.com:443" "1" "200"
      " Connection Established\r\n\r\n" (by decide) (by decide)).2.mpr rfl,
   (connect_proxy_requires_200 "api.example.com:443" "1" "200"
      " Connection Established\r\n\r\n" (by decide) (by decide)).1⟩

/-- Taking while a predicate holds everywhere returns the whole list. -/
theorem takeWhile_all_true (pr : Char → Bool) (l : List Char)
    (h : ∀ c ∈ l, pr c = true) : l.takeWhile pr = l := by
  induction l with
  | nil => rfl
  | cons a as ih =>
      rw [List.takeWhile_cons, h a (List.mem_cons_self a as)]
      simp [ih (fun c hc => h c (List.mem_cons_of_mem a hc))]

/-- The take-while scan stops exactly at the first failing character. -/
theorem takeWhile_append_stop (pr : Char → Bool) (l1 : List Char) (x : Char)
    (l2 : List Char) (h1 : ∀ c ∈ l1, pr c = true) (hx : pr x = false) :
    (l1 ++ x :: l2).takeWhile pr = l1 ∧ (l1 ++ x :: l2).dropWhile pr = x :: l2 := by
  induction l1 with
  | nil =>
      constructor
      · rw [List.nil_append, List.takeWhile_cons, hx]
        simp
      · rw [List.nil_append, List.dropWhile_cons, hx]
        simp
  | cons a as ih =>
      have ha : pr a = true := h1 a (List.mem_cons_self a as)
      have hrest := ih (fun c hc => h1 c (List.mem_cons_of_mem a hc))
      constructor
      · rw [List.cons_append, List.takeWhile_cons, ha]
        simp [hrest.1]
      · rw [List.cons_append, List.dropWhile_cons, ha]
        simp [hrest.2]

/-- A digit is never a colon. -/
theorem digit_ne_colon (c : Char) (h : c.isDigit = true) : c ≠ ':' := by
  intro hc
  subst hc
  exact absurd h (by decide)

/-- The Host-header byte scan on a well-formed `host:port` address with a
colon-free host and an all-digit port recovers the host. -/
theorem hostHeader_strip (h p : String) (hne : h.data ≠ [])
    (hcolon : ∀ c ∈ h.data, c ≠ ':') (hpne : p.data ≠ [])
    (hdig : ∀ c ∈ p.data, c.isDigit = true) :
    hostHeaderForAddr (h ++ ":" ++ p) = h := by
  have hdata : (h ++ ":" ++ p).data = (h.data ++ [':']) ++ p.data := by
    simp [String.data_append]
  unfold hostHeaderForAddr
  rw [hdata]
  rw [List.getLast?_append_of_ne_nil _ hpne]
  obtain ⟨c, hc, hcmem⟩ := getLast?_exists p.data hpne
  rw [hc]
  dsimp only
  have hdigc : ('0' ≤ c ∧ c ≤ '9') := by
    simpa [Char.isDigit, Bool.and_eq_true, decide_eq_true_iff] using hdig c hcmem
  rw [if_pos hdigc]
  have hscan : lastColonScan ((h.data ++ [':']) ++ p.data) = some h.data.length := by
    unfold lastColonScan
    have hrev : ((h.data ++ [':']) ++ p.data).reverse =
        p.data.reverse ++ ':' :: h.data.reverse := by
      simp [List.reverse_append]
    rw [hrev]
    have htw : (p.data.reverse ++ ':' :: h.data.reverse).takeWhile (fun c => c ≠ ':') =
        p.data.reverse := by
      refine (takeWhile_append_stop _ _ _ _ ?_ (by simp)).1
      intro d hd
      simp only [ne_eq, decide_eq_true_eq]
      exact digit_ne_colon d (hdig d (List.mem_reverse.mp hd))
    rw [htw]
    simp only [List.length_append, List.length_reverse, List.length_cons,
      List.length_append]
    rw [if_neg (by omega)]
    congr 1
    simp
  rw [hscan]
  dsimp only
  rw [if_pos (List.length_pos.mpr hne)]
  have htake : ((h.data ++ [':']) ++ p.data).take h.data.length = h.data := by
    rw [List.append_assoc]
    exact List.take_left _ _
  rw [htake]

/-- Adding a value under a key extends that key's value list at the end. -/
theorem lookupVals_addC_same (ck v : String) (h : Header) :
    lookupVals (headerAddC ck v h) ck = lookupVals h ck ++ [v] := by
  induction h with
  | nil => simp [headerAddC, lookupVals]
  | cons e rest ih =>
      obtain ⟨k0, vs⟩ := e
      by_cases hk : k0 = ck
      · subst hk
        simp [headerAddC, lookupVals]
      · simp [headerAddC, lookupVals, hk, ih]

/-- Adding a value under one key leaves every other key's values alone. -/
theorem lookupVals_addC_other (ck v ck' : String) (h : Header) (hne : ck' ≠ ck) :
    lookupVals (headerAddC ck v h) ck' = lookupVals h ck' := by
  induction h with
  | nil => simp [headerAddC, lookupVals, Ne.symm hne]
  | cons e rest ih =>
      obtain ⟨k0, vs⟩ := e
      by_cases hk : k0 = ck
      · subst hk
        simp [headerAddC, lookupVals, Ne.symm hne]
      · simp [headerAddC, lookupVals, hk, ih]

/-- Folding a value list into a header appends it to the key's values. -/
theorem lookupVals_foldAdd_same (vs : List String) (d : Header) (ck : String) :
    lookupVals (vs.foldl (fun d' v => headerAddC ck v d') d) ck =
      lookupVals d ck ++ vs := by
  induction vs generalizing d with
  | nil => simp
  | cons v vt ih =>
      rw [List.foldl_cons, ih, lookupVals_addC_same, List.append_assoc]
      rfl

/-- Folding a value list under one key leaves other keys alone. -/
theorem lookupVals_foldAdd_other (vs : List String) (d : Header) (ck ck' : String)
    (hne : ck' ≠ ck) :
    lookupVals (vs.foldl (fun d' v => headerAddC ck v d') d) ck' = lookupVals d ck' := by
  induction vs generalizing d with
  | nil => simp
  | cons v vt ih =>
      rw [List.foldl_cons, ih, lookupVals_addC_other _ _ _ _ hne]

/-- A key absent from the map has no values. -/
theorem lookupVals_eq_nil_of_not_key (h : Header) (ck : String)
    (hnk : ck ∉ h.map Prod.fst) : lookupVals h ck = [] := by
  induction h with
  | nil => rfl
  | cons e rest ih =>
      have h1 : e.1 ≠ ck := by
        intro hc
        exact hnk (by rw [← hc]; exact List.mem_cons_self _ _)
      simp only [lookupVals, if_neg h1]
      exact ih (fun hm => hnk (List.mem_cons_of_mem _ hm))

/-- Copying a header map with canonical, duplicate-free keys preserves
every key's value list. -/
theorem copyHeaders_lookupVals (src : Header) :
    ∀ (dst : Header) (ck : String),
      (∀ e ∈ src, e.1 = canonKey e.1) → ((src.map Prod.fst).Nodup) →
      lookupVals (copyHeaders dst src) ck = lookupVals dst ck ++ lookupVals src ck := by
  induction src with
  | nil =>
      intro dst ck _ _
      simp [copyHeaders, lookupVals]
  | cons e rest ih =>
      intro dst ck hcanon hnodup
      have hstep : copyHeaders dst (e :: rest) =
          copyHeaders (e.2.foldl (fun d' v => headerAdd d' e.1 v) dst) rest := rfl
      rw [hstep]
      have hcanE : canonKey e.1 = e.1 := (hcanon e (List.mem_cons_self e rest)).symm
      have hfold : e.2.foldl (fun d' v => headerAdd d' e.1 v) dst =
          e.2.foldl (fun d' v => headerAddC e.1 v d') dst := by
        unfold headerAdd
        rw [hcanE]
      rw [hfold]
      rw [ih _ ck (fun x hx => hcanon x (List.mem_cons_of_mem e hx))
        (List.Nodup.of_cons (by simpa using hnodup))]
      by_cases hck : ck = e.1
      · rw [hck, lookupVals_foldAdd_same]
        have hnotin : e.1 ∉ rest.map Prod.fst := by
          have hn := hnodup
          simp only [List.map_cons, List.nodup_cons] at hn
          exact hn.1
        rw [lookupVals_eq_nil_of_not_key rest e.1 hnotin]
        have hhead : lookupVals (e :: rest) e.1 = e.2 := by
          simp [lookupVals]
        rw [hhead, List.append_nil]
      · rw [lookupVals_foldAdd_other _ _ _ _ hck]
        have hhead : lookupVals (e :: rest) ck = lookupVals rest ck := by
          have hne : e.1 ≠ ck := fun hc => hck hc.symm
          simp only [lookupVals, if_neg hne]
        rw [hhead]

/-- A node whose backend address is the bare IPv6 loopback literal. -/
def nodeV6 : Node := ⟨"n6", "::1", none, some "Host{a}", ""⟩

/-- C7 counterexample: for the portless node address `::1` the forwarder
sets the outbound Host header to `:`, which is neither the address
itself nor the address with a port suffix removed, contradicting the
claim for addresses without a port. -/
theorem forward_host_ipv6_counterexample :
    (forwardRequest (plainGet "a" "/") nodeV6).hostHeader = ":" ∧
    (":" : String) ≠ "::1" ∧ (":" : String) ≠ "::" := by
  refine ⟨by decide, by decide, by decide⟩

/-- C7 amended: the outbound request's Host header is `node.addr` run
through the backwards byte scan, which strips a trailing all-digit
`:port` from any address whose host part is nonempty and colon-free and
leaves colon-free addresses unchanged (bare IPv6 literals are mangled);
and the outbound request carries every inbound header with all of its
values, for header maps with canonical, duplicate-free keys. -/
theorem forward_host_and_headers (req : Request) (node : Node) (h p k : String) :
    ((forwardRequest req node).hostHeader = hostHeaderForAddr node.addr) ∧
    (h.data ≠ [] → (∀ c ∈ h.data, c ≠ ':') → p.data ≠ [] →
      (∀ c ∈ p.data, c.isDigit = true) →
      hostHeaderForAddr (h ++ ":" ++ p) = h) ∧
    ((∀ c ∈ node.addr.data, c ≠ ':') →
      hostHeaderForAddr node.addr = node.addr) ∧
    ((∀ e ∈ req.headers, e.1 = canonKey e.1) → ((req.headers.map Prod.fst).Nodup) →
      headerValues (forwardRequest req node).headers k = headerValues req.headers k) := by
  refine ⟨rfl, hostHeader_strip h p, ?_, ?_⟩
  · intro hnc
    unfold hostHeaderForAddr
    cases hl : node.addr.data.getLast? with
    | none => rfl
    | some c =>
        dsimp only
        by_cases hd : ('0' ≤ c ∧ c ≤ '9')
        · rw [if_pos hd]
          have hscan : lastColonScan node.addr.data = none := by
            unfold lastColonScan
            rw [takeWhile_all_true _ _ (by
              intro d hdm
              simp only [ne_eq, decide_eq_true_eq]
              exact hnc d (List.mem_reverse.mp hdm))]
            simp
          rw [hscan]
        · rw [if_neg hd]
  · intro hcanon hnodup
    have hcv := copyHeaders_lookupVals req.headers [] (canonKey k) hcanon hnodup
    have hbase : lookupVals ([] : Header) (canonKey k) = [] := rfl
    rw [hbase, List.nil_append] at hcv
    show lookupVals (copyHeaders [] req.headers) (canonKey k) =
      lookupVals req.headers (canonKey k)
    exact hcv

/-- Whether an `Except` holds an error. -/
def isErrE {α : Type} : Except String α → Bool
  | .error _ => true
  | .ok _ => false

/-- Errors are exactly the values `isErrE` accepts. -/
theorem isErrE_iff {α : Type} (x : Except String α) :
    isErrE x = true ↔ ∃ e, x = .error e := by
  cases x with
  | error e => simp [isErrE]
  | ok a => simp [isErrE]

/-- A node whose rule fails to parse, or with neither filter nor
matcher, fails `buildRoute`. -/
theorem buildRoute_err_of_bad (rc : String → Bool) (node : Node)
    (hf : node.filterHost = none)
    (hm : node.matcherRule = none ∨
      ∃ r, node.matcherRule = some r ∧ isErrE (ParseRule rc r) = true) :
    isErrE (buildRoute rc node) = true := by
  unfold buildRoute
  rw [hf]
  rcases hm with hm | ⟨r, hr, herr⟩
  · rw [hm]
    rfl
  · rw [hr]
    rcases (isErrE_iff (ParseRule rc r)).mp herr with ⟨e, he⟩
    simp only [he]
    rfl

/-- A failing node anywhere in a node list fails `buildNodes`. -/
theorem buildNodes_err_of_mem (rc : String → Bool) (nodes : List Node) (node : Node)
    (hmem : node ∈ nodes) (herr : isErrE (buildRoute rc node) = true) :
    isErrE (buildNodes rc nodes) = true := by
  induction nodes with
  | nil => cases hmem
  | cons n rest ih =>
      rcases List.mem_cons.mp hmem with hn | hn
      · subst hn
        unfold buildNodes
        rcases (isErrE_iff (buildRoute rc node)).mp herr with ⟨e, he⟩
        rw [he]
        rfl
      · unfold buildNodes
        cases hb : buildRoute rc n with
        | error e => rfl
        | ok r =>
            rcases (isErrE_iff (buildNodes rc rest)).mp (ih hn) with ⟨e, he⟩
            rw [he]
            rfl

/-- A failing node anywhere in the configuration fails the whole table
build. -/
theorem buildRoutes_err_of_mem (rc : String → Bool) (services : List Service)
    (svc : Service) (node : Node) (hs : svc ∈ services) (hn : node ∈ svc.nodes)
    (herr : isErrE (buildRoute rc node) = true) :
    isErrE (buildRoutes rc services) = true := by
  induction services with
  | nil => cases hs
  | cons s rest ih =>
      rcases List.mem_cons.mp hs with h | h
      · subst h
        unfold buildRoutes
        rcases (isErrE_iff (buildNodes rc svc.nodes)).mp
          (buildNodes_err_of_mem rc svc.nodes node hn herr) with ⟨e, he⟩
        rw [he]
        rfl
      · unfold buildRoutes
        cases hb : buildNodes rc s.nodes with
        | error e => rfl
        | ok a =>
            rcases (isErrE_iff (buildRoutes rc rest)).mp (ih h) with ⟨e, he⟩
            rw [he]
            rfl

/-- C2 -/
theorem failed_rebuild_keeps_table (rc : String → Bool) (rm : String → String → Bool)
    (routes : List Route) (services : List Service)
    (hbad : ∃ svc ∈ services, ∃ node ∈ svc.nodes, node.filterHost = none ∧
      (node.matcherRule = none ∨
        ∃ r, node.matcherRule = some r ∧ isErrE (ParseRule rc r) = true)) :
    isErrE (buildRoutes rc services) = true ∧
    (routerUpdateRoutes rc routes services).1 = routes ∧
    (∃ e, (routerUpdateRoutes rc routes services).2 = some e) ∧
    ∀ req, routerMatch rm (routerUpdateRoutes rc routes services).1 req =
      routerMatch rm routes req := by
  rcases hbad with ⟨svc, hs, node, hn, hf, hm⟩
  have herr : isErrE (buildRoutes rc services) = true :=
    buildRoutes_err_of_mem rc services svc node hs hn (buildRoute_err_of_bad rc node hf hm)
  rcases (isErrE_iff (buildRoutes rc services)).mp herr with ⟨e, he⟩
  refine ⟨herr, ?_, ?_, ?_⟩
  · unfold routerUpdateRoutes
    rw [he]
  · unfold routerUpdateRoutes
    rw [he]
    exact ⟨e, rfl⟩
  · intro req
    unfold routerUpdateRoutes
    rw [he]

/-- A node whose rule names an unknown matcher. -/
def nodeBadRule : Node := ⟨"bad", "10.0.0.3:80", none, some "Nope{x}", ""⟩

/-- A service containing the bad node after a good one. -/
def svcWithBad : Service := ⟨"svc2", [nodeA, nodeBadRule]⟩

/-- C2 witness: reloading a configuration holding a node whose rule
`Nope{x}` fails to parse reports an error and keeps the previous one-route
table, so matching is unchanged. -/
theorem failed_rebuild_keeps_table_witness :
    isErrE (buildRoutes (fun _ => true) [svcWithBad]) = true ∧
    (routerUpdateRoutes (fun _ => true) [⟨"A", .host "a", nodeA⟩] [svcWithBad]).1 =
      [⟨"A", .host "a", nodeA⟩] ∧
    (∃ e, (routerUpdateRoutes (fun _ => true) [⟨"A", .host "a", nodeA⟩] [svcWithBad]).2 =
      some e) ∧
    ∀ req, routerMatch (fun _ _ => false)
        (routerUpdateRoutes (fun _ => true) [⟨"A", .host "a", nodeA⟩] [svcWithBad]).1 req =
      routerMatch (fun _ _ => false) [⟨"A", .host "a", nodeA⟩] req :=
  failed_rebuild_keeps_table (fun _ => true) (fun _ _ => false)
    [⟨"A", .host "a", nodeA⟩] [svcWithBad]
    ⟨svcWithBad, by decide, nodeBadRule, by decide, by decide,
      Or.inr ⟨"Nope{x}", by decide, by decide⟩⟩

/-- C1 -/
theorem match_returns_first_matching_route (rm : String → String → Bool)
    (routes : List Route) (req : Request) :
    (∀ n : Node, routerMatch rm routes req = some n ↔
        ∃ l1 route l2, routes = l1 ++ route :: l2 ∧ route.rule.eval rm req = true ∧
          n = route.node ∧ ∀ r ∈ l1, r.rule.eval rm req = false) ∧
    (routerMatch rm routes req = none ↔ ∀ rt ∈ routes, rt.rule.eval rm req = false) ∧
    routerMatch rm (routerUpdateRoutes (fun _ => true) [] [svcAB]).1 (plainGet "a" "/") =
      some nodeA :=
  ⟨fun n => routerMatch_some_iff rm routes req n,
   routerMatch_none_iff rm routes req, rfl⟩

/-- A request carrying `Upgrade: websocket` and `Connection: upgrade`
(lowercase value). -/
def reqConnLower : Request :=
  { method := "GET", host := "h", urlHost := "", path := "/", requestURI := "/"
  , query := []
  , headers := [("Upgrade", ["websocket"]), ("Connection", ["upgrade"])]
  , tls := false }

/-- C8 counterexample: the value comparisons of `isWebSocketUpgrade` are
case-sensitive, so a request whose `Connection` value is `upgrade`
(differing from `Upgrade` only in case) is not classified as a WebSocket
upgrade, contradicting the claim's case-insensitive reading; it falls
through to plain HTTP handling instead. -/
theorem websocket_upgrade_case_counterexample :
    isWebSocketUpgrade reqConnLower = false ∧
    upperStr (headerGet reqConnLower.headers "Upgrade") = upperStr "websocket" ∧
    upperStr (headerGet reqConnLower.headers "Connection") = upperStr "Upgrade" ∧
    serveHTTP (fun _ _ => false) [] reqConnLower = .response (handleNoMatch reqConnLower) := by
  refine ⟨by decide, by decide, by decide, by decide⟩

/-- C8 amended: a non-CONNECT request is dispatched to the WebSocket
bridge exactly when its `Upgrade` header value is byte-equal to
"websocket" and its `Connection` header value is byte-equal to
"Upgrade"; the header key lookup is canonicalized (case-insensitive) but
the value comparisons are case-sensitive. -/
theorem websocket_upgrade_classification (rm : String → String → Bool)
    (routes : List Route) (req : Request) (h1 : req.method ≠ "CONNECT") :
    serveHTTP rm routes req = .websocket ↔
      (headerGet req.headers "Upgrade" = "websocket" ∧
        headerGet req.headers "Connection" = "Upgrade") := by
  unfold serveHTTP
  rw [if_neg h1]
  by_cases hup : isWebSocketUpgrade req
  · rw [if_pos hup]
    have := hup
    unfold isWebSocketUpgrade at this
    simp only [Bool.and_eq_true, beq_iff_eq] at this
    simp [this]
  · rw [if_neg hup]
    unfold isWebSocketUpgrade at hup
    simp only [Bool.and_eq_true, beq_iff_eq, not_and_or] at hup
    constructor
    · intro hcontra
      exfalso
      cases hmatch : routerMatch rm routes req with
      | none => rw [hmatch] at hcontra; exact Dispatch.noConfusion hcontra
      | some n => rw [hmatch] at hcontra; exact Dispatch.noConfusion hcontra
    · intro hvals
      exact absurd hvals (by
        rcases hup with h | h
        · exact fun hv => h hv.1
        · exact fun hv => h hv.2)

/-- C8 witness: a request with the exact-case header values, against an
empty table, is dispatched to the WebSocket bridge. -/
theorem websocket_upgrade_classification_witness :
    serveHTTP (fun _ _ => false) []
      { method := "GET", host := "h", urlHost := "", path := "/", requestURI := "/"
      , query := []
      , headers := [("Upgrade", ["websocket"]), ("Connection", ["Upgrade"])]
      , tls := false } = .websocket :=
  (websocket_upgrade_classification (fun _ _ => false) [] _ (by decide)).mpr
    (by exact ⟨by decide, by decide⟩)


/-- One step of `parseOr`. -/
theorem parseOrL_step (rc : String → Bool) (f : Nat) (i : List Char) :
    parseOrL rc (f + 1) i =
      (match parseAndL rc f i with
       | .error e => .error e
       | .ok (l, rest) => parseOrLoop rc f l rest) := rfl

/-- One iteration of the `parseOr` loop. -/
theorem parseOrLoop_step (rc : String → Bool) (f : Nat) (left : Rule) (i : List Char) :
    parseOrLoop rc (f + 1) left i =
      (let j := skipWS i
       if hasPre "||".data j then
         match parseAndL rc f (skipWS (j.drop 2)) with
         | .error e => .error e
         | .ok (right, rest) => parseOrLoop rc f (.or left right) rest
       else .ok (left, j)) := rfl

/-- One step of `parseAnd`. -/
theorem parseAndL_step (rc : String → Bool) (f : Nat) (i : List Char) :
    parseAndL rc (f + 1) i =
      (match parseUnaryL rc f i with
       | .error e => .error e
       | .ok (l, rest) => parseAndLoop rc f l rest) := rfl

/-- One iteration of the `parseAnd` loop. -/
theorem parseAndLoop_step (rc : String → Bool) (f : Nat) (left : Rule) (i : List Char) :
    parseAndLoop rc (f + 1) left i =
      (let j := skipWS i
       if hasPre "&&".data j then
         match parseUnaryL rc f (skipWS (j.drop 2)) with
         | .error e => .error e
         | .ok (right, rest) => parseAndLoop rc f (.and left right) rest
       else .ok (left, j)) := rfl

/-- One step of `parseUnary`. -/
theorem parseUnaryL_step (rc : String → Bool) (f : Nat) (input : List Char) :
    parseUnaryL rc (f + 1) input =
      (let i := skipWS input
       if matchCharL '!' i then
         match parseUnaryL rc f (skipWS (i.drop 1)) with
         | .error e => .error e
         | .ok (r, rest) => .ok (.not r, rest)
       else if matchCharL '(' i then
         match parseOrL rc f (skipWS (i.drop 1)) with
         | .error e => .error e
         | .ok (r, rest) =>
             let rest1 := skipWS rest
             if matchCharL ')' rest1 then .ok (r, rest1.drop 1)
             else .error "expected close paren"
       else parseMatcherL rc i) := rfl

/-- Skipping whitespace passes over a non-whitespace head unchanged. -/
theorem skipWS_cons_not (c : Char) (l : List Char) (h : isWS c = false) :
    skipWS (c :: l) = c :: l := by
  simp [skipWS, h]

/-- Skipping whitespace absorbs an all-whitespace prefix. -/
theorem skipWS_append_allWS (w l : List Char) (h : ∀ c ∈ w, isWS c = true) :
    skipWS (w ++ l) = skipWS l := by
  induction w with
  | nil => rfl
  | cons c cs ih =>
      rw [List.cons_append]
      show (if isWS c then skipWS (cs ++ l) else c :: (cs ++ l)) = skipWS l
      rw [h c (List.mem_cons_self c cs), if_pos rfl]
      exact ih (fun d hd => h d (List.mem_cons_of_mem c hd))

/-- The brace scan of a brace-free value stops at the closing brace. -/
theorem scanValue_closes (v : List Char) (rest : List Char)
    (hv : ∀ c ∈ v, c ≠ '{' ∧ c ≠ '}') :
    scanValue 1 (v ++ '}' :: rest) = some (v, rest) := by
  induction v with
  | nil => rfl
  | cons c cs ih =>
      have hc := hv c (List.mem_cons_self c cs)
      rw [List.cons_append]
      show (let d := if c = '{' then 2 else if c = '}' then 0 else 1
            if d = 0 then some ([], cs ++ '}' :: rest)
            else
              match scanValue d (cs ++ '}' :: rest) with
              | none => none
              | some (v', r) => some (c :: v', r)) = some (c :: cs, rest)
      rw [if_neg hc.1, if_neg hc.2]
      simp only []
      rw [if_neg (by omega)]
      rw [ih (fun d hd => hv d (List.mem_cons_of_mem c hd))]

/-- The matcher parser consumes exactly `name{value}` and leaves any
remaining input untouched, for a nonempty name of name characters and a
brace-free value that `createMatcher` accepts. -/
theorem parseMatcher_atom (rc : String → Bool) (name value : List Char) (r : Rule)
    (hn0 : name ≠ [])
    (hname : ∀ c ∈ name, isNameChar c = true ∧ isWS c = false)
    (hv : ∀ c ∈ value, c ≠ '{' ∧ c ≠ '}')
    (hcm : createMatcher rc ⟨name⟩ ⟨value⟩ = .ok r) :
    ∀ rest, parseMatcherL rc (name ++ '{' :: (value ++ '}' :: rest)) = .ok (r, rest) := by
  intro rest
  obtain ⟨c0, name', rfl⟩ : ∃ c0 name', name = c0 :: name' := by
    cases name with
    | nil => exact absurd rfl hn0
    | cons c0 name' => exact ⟨c0, name', rfl⟩
  have hskip : skipWS ((c0 :: name') ++ '{' :: (value ++ '}' :: rest)) =
      (c0 :: name') ++ '{' :: (value ++ '}' :: rest) := by
    rw [List.cons_append]
    exact skipWS_cons_not _ _ (hname c0 (List.mem_cons_self c0 name')).2
  have hspan := takeWhile_append_stop isNameChar (c0 :: name') '{'
    (value ++ '}' :: rest) (fun c hc => (hname c hc).1) (by decide)
  unfold parseMatcherL
  simp only []
  rw [hskip, hspan.1, hspan.2]
  rw [if_neg (by simp)]
  rw [skipWS_cons_not _ _ (by decide)]
  have hmc : matchCharL '{' ('{' :: (value ++ '}' :: rest)) = true := rfl
  rw [hmc, if_pos rfl]
  show (match scanValue 1 (value ++ '}' :: rest) with
        | none => Except.error "unmatched braces"
        | some (value, rest) =>
            match createMatcher rc ⟨c0 :: name'⟩ ⟨value⟩ with
            | .error e => .error e
            | .ok r => .ok (r, rest)) = .ok (r, rest)
  rw [scanValue_closes value rest hv]
  dsimp only
  rw [hcm]

/-- An atom for the unary parser: a string that `parseMatcher` consumes
exactly, beginning with a character that is not whitespace, `!` or `(`,
and ending in a non-whitespace character. -/
def RuleAtom (rc : String → Bool) (s : List Char) (r : Rule) : Prop :=
  (∀ rest, parseMatcherL rc (s ++ rest) = .ok (r, rest)) ∧
  (match s with
   | [] => False
   | c :: _ => isWS c = false ∧ c ≠ '!' ∧ c ≠ '(') ∧
  (match s.getLast? with
   | none => False
   | some c => isWS c = false)

/-- The unary parser on an atom behaves as the matcher parser. -/
theorem parseUnary_atom (rc : String → Bool) (s : List Char) (r : Rule)
    (ha : RuleAtom rc s r) (f : Nat) (rest : List Char) :
    parseUnaryL rc (f + 1) (s ++ rest) = .ok (r, rest) := by
  obtain ⟨hparse, hhead, -⟩ := ha
  cases s with
  | nil => exact absurd hhead (by simp)
  | cons c s' =>
      obtain ⟨hws, hbang, hparen⟩ := hhead
      rw [parseUnaryL_step]
      simp only []
      rw [List.cons_append, skipWS_cons_not _ _ hws]
      have hb : matchCharL '!' (c :: (s' ++ rest)) = false := by
        simp [matchCharL, hbang]
      have hp : matchCharL '(' (c :: (s' ++ rest)) = false := by
        simp [matchCharL, hparen]
      rw [hb, hp]
      simp only [Bool.false_eq_true, if_false]
      rw [← List.cons_append]
      exact hparse rest

/-- The `parseAnd` loop exits at input that does not continue with
`&&`, consuming leading whitespace. -/
theorem parseAndLoop_exit (rc : String → Bool) (f : Nat) (left : Rule) (i : List Char)
    (h : hasPre "&&".data (skipWS i) = false) :
    parseAndLoop rc (f + 1) left i = .ok (left, skipWS i) := by
  rw [parseAndLoop_step]
  simp only [h]
  rfl

/-- The `parseOr` loop exits at input that does not continue with
`||`, consuming leading whitespace. -/
theorem parseOrLoop_exit (rc : String → Bool) (f : Nat) (left : Rule) (i : List Char)
    (h : hasPre "||".data (skipWS i) = false) :
    parseOrLoop rc (f + 1) left i = .ok (left, skipWS i) := by
  rw [parseOrLoop_step]
  simp only [h]
  rfl

/-- `parseOr` step with the fuel shape supplied as an equation. -/
theorem parseOrL_stepAt (rc : String → Bool) (f g : Nat) (hf : f = g + 1) (i : List Char) :
    parseOrL rc f i =
      (match parseAndL rc g i with
       | .error e => .error e
       | .ok (l, rest) => parseOrLoop rc g l rest) := by
  subst hf
  rfl

/-- `parseOr` loop iteration with the fuel shape supplied as an equation. -/
theorem parseOrLoop_stepAt (rc : String → Bool) (f g : Nat) (hf : f = g + 1)
    (left : Rule) (i : List Char) :
    parseOrLoop rc f left i =
      (if hasPre "||".data (skipWS i) then
         match parseAndL rc g (skipWS ((skipWS i).drop 2)) with
         | .error e => .error e
         | .ok (right, rest) => parseOrLoop rc g (.or left right) rest
       else .ok (left, skipWS i)) := by
  subst hf
  rfl

/-- `parseAnd` step with the fuel shape supplied as an equation. -/
theorem parseAndL_stepAt (rc : String → Bool) (f g : Nat) (hf : f = g + 1) (i : List Char) :
    parseAndL rc f i =
      (match parseUnaryL rc g i with
       | .error e => .error e
       | .ok (l, rest) => parseAndLoop rc g l rest) := by
  subst hf
  rfl

/-- `parseAnd` loop iteration with the fuel shape supplied as an equation. -/
theorem parseAndLoop_stepAt (rc : String → Bool) (f g : Nat) (hf : f = g + 1)
    (left : Rule) (i : List Char) :
    parseAndLoop rc f left i =
      (if hasPre "&&".data (skipWS i) then
         match parseUnaryL rc g (skipWS ((skipWS i).drop 2)) with
         | .error e => .error e
         | .ok (right, rest) => parseAndLoop rc g (.and left right) rest
       else .ok (left, skipWS i)) := by
  subst hf
  rfl

/-- `parseUnary` step with the fuel shape supplied as an equation. -/
theorem parseUnaryL_stepAt (rc : String → Bool) (f g : Nat) (hf : f = g + 1)
    (input : List Char) :
    parseUnaryL rc f input =
      (if matchCharL '!' (skipWS input) then
         match parseUnaryL rc g (skipWS ((skipWS input).drop 1)) with
         | .error e => .error e
         | .ok (r, rest) => .ok (.not r, rest)
       else if matchCharL '(' (skipWS input) then
         match parseOrL rc g (skipWS ((skipWS input).drop 1)) with
         | .error e => .error e
         | .ok (r, rest) =>
             if matchCharL ')' (skipWS rest) then .ok (r, (skipWS rest).drop 1)
             else .error "expected close paren"
       else parseMatcherL rc (skipWS input)) := by
  subst hf
  rfl

/-- Skipping whitespace consumes a leading space. -/
theorem skipWS_space (l : List Char) : skipWS (' ' :: l) = skipWS l := rfl

/-- An atom begins with a non-whitespace character, so skipping
whitespace in front of it does nothing. -/
theorem skipWS_atom (rc : String → Bool) (s : List Char) (r : Rule)
    (ha : RuleAtom rc s r) (t : List Char) : skipWS (s ++ t) = s ++ t := by
  obtain ⟨-, hhead, -⟩ := ha
  cases s with
  | nil => exact absurd hhead (by simp)
  | cons c s' =>
      rw [List.cons_append]
      exact skipWS_cons_not _ _ hhead.1

/-- A single atom parsed by `parseAnd`, with no `&&` continuation. -/
theorem parseAndL_atom_exit (rc : String → Bool) (a : List Char) (ra : Rule)
    (ha : RuleAtom rc a ra) (f : Nat) (rest : List Char)
    (hne : hasPre "&&".data (skipWS rest) = false) :
    parseAndL rc (f + 2) (a ++ rest) = .ok (ra, skipWS rest) := by
  rw [parseAndL_stepAt rc (f + 2) (f + 1) rfl]
  rw [parseUnary_atom rc a ra ha f rest]
  dsimp only
  exact parseAndLoop_exit rc f ra rest hne

/-- Two atoms joined by `&&`, with no further continuation. -/
theorem parseAndL_two_atoms (rc : String → Bool) (a b : List Char) (ra rb : Rule)
    (ha : RuleAtom rc a ra) (hb : RuleAtom rc b rb) (f : Nat) (rest : List Char)
    (hne : hasPre "&&".data (skipWS rest) = false) :
    parseAndL rc (f + 3) (a ++ (' ' :: '&' :: '&' :: ' ' :: (b ++ rest))) =
      .ok (.and ra rb, skipWS rest) := by
  rw [parseAndL_stepAt rc (f + 3) (f + 2) rfl]
  rw [show parseUnaryL rc (f + 2) (a ++ (' ' :: '&' :: '&' :: ' ' :: (b ++ rest))) =
      .ok (ra, ' ' :: '&' :: '&' :: ' ' :: (b ++ rest)) from
    parseUnary_atom rc a ra ha (f + 1) _]
  dsimp only
  rw [parseAndLoop_stepAt rc (f + 2) (f + 1) rfl]
  have hsk : skipWS (' ' :: '&' :: '&' :: ' ' :: (b ++ rest)) =
      '&' :: '&' :: ' ' :: (b ++ rest) := by
    rw [skipWS_space]
    exact skipWS_cons_not _ _ (by decide)
  rw [hsk]
  rw [show hasPre "&&".data ('&' :: '&' :: ' ' :: (b ++ rest)) = true from rfl]
  rw [if_pos rfl]
  rw [show ('&' :: '&' :: ' ' :: (b ++ rest)).drop 2 = ' ' :: (b ++ rest) from rfl]
  rw [skipWS_space, skipWS_atom rc b rb hb rest]
  rw [parseUnary_atom rc b rb hb f rest]
  dsimp only
  exact parseAndLoop_exit rc f (.and ra rb) rest hne

/-- An atom needs no whitespace skipped even with nothing after it. -/
theorem skipWS_atom_nil (rc : String → Bool) (s : List Char) (r : Rule)
    (ha : RuleAtom rc s r) : skipWS s = s := by
  have h0 := skipWS_atom rc s r ha []
  rw [List.append_nil] at h0
  exact h0

/-- The unary parser consumes an atom standing alone. -/
theorem parseUnary_atom_nil (rc : String → Bool) (s : List Char) (r : Rule)
    (ha : RuleAtom rc s r) (f : Nat) :
    parseUnaryL rc (f + 1) s = .ok (r, []) := by
  have h0 := parseUnary_atom rc s r ha f []
  rw [List.append_nil] at h0
  exact h0

/-- The derivation of `A || B && C`: the `&&` chain binds tighter and
ends up under the right operand of the `||`. -/
theorem parseOr_precedence_or_and (rc : String → Bool) (a b c : List Char)
    (ra rb rc' : Rule) (ha : RuleAtom rc a ra) (hb : RuleAtom rc b rb)
    (hc : RuleAtom rc c rc') (f : Nat) :
    parseOrL rc (f + 5)
      (a ++ (' ' :: '|' :: '|' :: ' ' :: (b ++ (' ' :: '&' :: '&' :: ' ' :: c)))) =
      .ok (.or ra (.and rb rc'), []) := by
  rw [parseOrL_stepAt rc (f + 5) (f + 4) rfl]
  have hske : skipWS (' ' :: '|' :: '|' :: ' ' :: (b ++ (' ' :: '&' :: '&' :: ' ' :: c))) =
      '|' :: '|' :: ' ' :: (b ++ (' ' :: '&' :: '&' :: ' ' :: c)) := by
    rw [skipWS_space]
    exact skipWS_cons_not _ _ (by decide)
  have hA : parseAndL rc (f + 4)
      (a ++ (' ' :: '|' :: '|' :: ' ' :: (b ++ (' ' :: '&' :: '&' :: ' ' :: c)))) =
      .ok (ra, '|' :: '|' :: ' ' :: (b ++ (' ' :: '&' :: '&' :: ' ' :: c))) := by
    have h0 := parseAndL_atom_exit rc a ra ha (f + 2)
      (' ' :: '|' :: '|' :: ' ' :: (b ++ (' ' :: '&' :: '&' :: ' ' :: c)))
      (by rw [hske]; rfl)
    rw [hske] at h0
    exact h0
  rw [hA]
  dsimp only
  rw [parseOrLoop_stepAt rc (f + 4) (f + 3) rfl]
  rw [skipWS_cons_not '|' ('|' :: ' ' :: (b ++ (' ' :: '&' :: '&' :: ' ' :: c))) (by decide)]
  rw [show hasPre "||".data
      ('|' :: '|' :: ' ' :: (b ++ (' ' :: '&' :: '&' :: ' ' :: c))) = true from rfl]
  rw [if_pos rfl]
  rw [show ('|' :: '|' :: ' ' :: (b ++ (' ' :: '&' :: '&' :: ' ' :: c))).drop 2 =
      ' ' :: (b ++ (' ' :: '&' :: '&' :: ' ' :: c)) from rfl]
  rw [skipWS_space, skipWS_atom rc b rb hb _]
  have hB : parseAndL rc (f + 3) (b ++ (' ' :: '&' :: '&' :: ' ' :: c)) =
      .ok (.and rb rc', []) := by
    have h0 := parseAndL_two_atoms rc b c rb rc' hb hc f [] (by rfl)
    rw [List.append_nil] at h0
    exact h0
  rw [hB]
  dsimp only
  exact parseOrLoop_exit rc (f + 2) _ [] (by rfl)

/-- The derivation of `!A && B`: the negation binds tighter than the
conjunction. -/
theorem parseOr_precedence_not_and (rc : String → Bool) (a b : List Char)
    (ra rb : Rule) (ha : RuleAtom rc a ra) (hb : RuleAtom rc b rb) (f : Nat) :
    parseOrL rc (f + 4) ('!' :: (a ++ (' ' :: '&' :: '&' :: ' ' :: b))) =
      .ok (.and (.not ra) rb, []) := by
  rw [parseOrL_stepAt rc (f + 4) (f + 3) rfl]
  have hA : parseAndL rc (f + 3) ('!' :: (a ++ (' ' :: '&' :: '&' :: ' ' :: b))) =
      .ok (.and (.not ra) rb, []) := by
    rw [parseAndL_stepAt rc (f + 3) (f + 2) rfl]
    have hU : parseUnaryL rc (f + 2) ('!' :: (a ++ (' ' :: '&' :: '&' :: ' ' :: b))) =
        .ok (.not ra, ' ' :: '&' :: '&' :: ' ' :: b) := by
      rw [parseUnaryL_stepAt rc (f + 2) (f + 1) rfl]
      rw [skipWS_cons_not '!' (a ++ (' ' :: '&' :: '&' :: ' ' :: b)) (by decide)]
      rw [show matchCharL '!' ('!' :: (a ++ (' ' :: '&' :: '&' :: ' ' :: b))) = true from rfl]
      rw [if_pos rfl]
      rw [show ('!' :: (a ++ (' ' :: '&' :: '&' :: ' ' :: b))).drop 1 =
          a ++ (' ' :: '&' :: '&' :: ' ' :: b) from rfl]
      rw [skipWS_atom rc a ra ha _]
      rw [parseUnary_atom rc a ra ha f (' ' :: '&' :: '&' :: ' ' :: b)]
    rw [hU]
    dsimp only
    rw [parseAndLoop_stepAt rc (f + 2) (f + 1) rfl]
    have hsk : skipWS (' ' :: '&' :: '&' :: ' ' :: b) = '&' :: '&' :: ' ' :: b := by
      rw [skipWS_space]
      exact skipWS_cons_not _ _ (by decide)
    rw [hsk]
    rw [show hasPre "&&".data ('&' :: '&' :: ' ' :: b) = true from rfl]
    rw [if_pos rfl]
    rw [show ('&' :: '&' :: ' ' :: b).drop 2 = ' ' :: b from rfl]
    rw [skipWS_space, skipWS_atom_nil rc b rb hb]
    rw [parseUnary_atom_nil rc b rb hb f]
    dsimp only
    exact parseAndLoop_exit rc f _ [] (by rfl)
  rw [hA]
  dsimp only
  exact parseOrLoop_exit rc (f + 2) _ [] (by rfl)

/-- The derivation of `(A || B) && C`: parentheses override precedence. -/
theorem parseOr_precedence_paren (rc : String → Bool) (a b c : List Char)
    (ra rb rc' : Rule) (ha : RuleAtom rc a ra) (hb : RuleAtom rc b rb)
    (hc : RuleAtom rc c rc') (f : Nat) :
    parseOrL rc (f + 7)
      ('(' :: (a ++ (' ' :: '|' :: '|' :: ' ' ::
        (b ++ (')' :: ' ' :: '&' :: '&' :: ' ' :: c))))) =
      .ok (.and (.or ra rb) rc', []) := by
  rw [parseOrL_stepAt rc (f + 7) (f + 6) rfl]
  have hA : parseAndL rc (f + 6)
      ('(' :: (a ++ (' ' :: '|' :: '|' :: ' ' ::
        (b ++ (')' :: ' ' :: '&' :: '&' :: ' ' :: c))))) =
      .ok (.and (.or ra rb) rc', []) := by
    rw [parseAndL_stepAt rc (f + 6) (f + 5) rfl]
    have hU : parseUnaryL rc (f + 5)
        ('(' :: (a ++ (' ' :: '|' :: '|' :: ' ' ::
          (b ++ (')' :: ' ' :: '&' :: '&' :: ' ' :: c))))) =
        .ok (.or ra rb, ' ' :: '&' :: '&' :: ' ' :: c) := by
      rw [parseUnaryL_stepAt rc (f + 5) (f + 4) rfl]
      rw [skipWS_cons_not '(' (a ++ (' ' :: '|' :: '|' :: ' ' ::
        (b ++ (')' :: ' ' :: '&' :: '&' :: ' ' :: c)))) (by decide)]
      rw [show matchCharL '!' ('(' :: (a ++ (' ' :: '|' :: '|' :: ' ' ::
        (b ++ (')' :: ' ' :: '&' :: '&' :: ' ' :: c))))) = false from rfl]
      rw [if_neg (by decide)]
      rw [show matchCharL '(' ('(' :: (a ++ (' ' :: '|' :: '|' :: ' ' ::
        (b ++ (')' :: ' ' :: '&' :: '&' :: ' ' :: c))))) = true from rfl]
      rw [if_pos rfl]
      rw [show ('(' :: (a ++ (' ' :: '|' :: '|' :: ' ' ::
        (b ++ (')' :: ' ' :: '&' :: '&' :: ' ' :: c))))).drop 1 =
        a ++ (' ' :: '|' :: '|' :: ' ' ::
          (b ++ (')' :: ' ' :: '&' :: '&' :: ' ' :: c))) from rfl]
      rw [skipWS_atom rc a ra ha _]
      have hInner : parseOrL rc (f + 4)
          (a ++ (' ' :: '|' :: '|' :: ' ' ::
            (b ++ (')' :: ' ' :: '&' :: '&' :: ' ' :: c)))) =
          .ok (.or ra rb, ')' :: ' ' :: '&' :: '&' :: ' ' :: c) := by
        rw [parseOrL_stepAt rc (f + 4) (f + 3) rfl]
        have hske : skipWS (' ' :: '|' :: '|' :: ' ' ::
            (b ++ (')' :: ' ' :: '&' :: '&' :: ' ' :: c))) =
            '|' :: '|' :: ' ' :: (b ++ (')' :: ' ' :: '&' :: '&' :: ' ' :: c)) := by
          rw [skipWS_space]
          exact skipWS_cons_not _ _ (by decide)
        have hA1 : parseAndL rc (f + 3)
            (a ++ (' ' :: '|' :: '|' :: ' ' ::
              (b ++ (')' :: ' ' :: '&' :: '&' :: ' ' :: c)))) =
            .ok (ra, '|' :: '|' :: ' ' ::
              (b ++ (')' :: ' ' :: '&' :: '&' :: ' ' :: c))) := by
          have h0 := parseAndL_atom_exit rc a ra ha (f + 1)
            (' ' :: '|' :: '|' :: ' ' :: (b ++ (')' :: ' ' :: '&' :: '&' :: ' ' :: c)))
            (by rw [hske]; rfl)
          rw [hske] at h0
          exact h0
        rw [hA1]
        dsimp only
        rw [parseOrLoop_stepAt rc (f + 3) (f + 2) rfl]
        rw [skipWS_cons_not '|'
          ('|' :: ' ' :: (b ++ (')' :: ' ' :: '&' :: '&' :: ' ' :: c))) (by decide)]
        rw [show hasPre "||".data ('|' :: '|' :: ' ' ::
          (b ++ (')' :: ' ' :: '&' :: '&' :: ' ' :: c))) = true from rfl]
        rw [if_pos rfl]
        rw [show ('|' :: '|' :: ' ' ::
          (b ++ (')' :: ' ' :: '&' :: '&' :: ' ' :: c))).drop 2 =
          ' ' :: (b ++ (')' :: ' ' :: '&' :: '&' :: ' ' :: c)) from rfl]
        rw [skipWS_space, skipWS_atom rc b rb hb _]
        have hB : parseAndL rc (f + 2)
            (b ++ (')' :: ' ' :: '&' :: '&' :: ' ' :: c)) =
            .ok (rb, ')' :: ' ' :: '&' :: '&' :: ' ' :: c) := by
          have h0 := parseAndL_atom_exit rc b rb hb f
            (')' :: ' ' :: '&' :: '&' :: ' ' :: c)
            (by rw [skipWS_cons_not _ _ (by decide)]; rfl)
          rw [skipWS_cons_not _ _ (by decide)] at h0
          exact h0
        rw [hB]
        dsimp only
        have h0 := parseOrLoop_exit rc (f + 1) (.or ra rb)
          (')' :: ' ' :: '&' :: '&' :: ' ' :: c)
          (by rw [skipWS_cons_not _ _ (by decide)]; rfl)
        rw [skipWS_cons_not _ _ (by decide)] at h0
        exact h0
      rw [hInner]
      dsimp only
      rw [skipWS_cons_not ')' (' ' :: '&' :: '&' :: ' ' :: c) (by decide)]
      rw [show matchCharL ')' (')' :: ' ' :: '&' :: '&' :: ' ' :: c) = true from rfl]
      rw [if_pos rfl]
      rfl
    rw [hU]
    dsimp only
    rw [parseAndLoop_stepAt rc (f + 5) (f + 4) rfl]
    have hsk : skipWS (' ' :: '&' :: '&' :: ' ' :: c) = '&' :: '&' :: ' ' :: c := by
      rw [skipWS_space]
      exact skipWS_cons_not _ _ (by decide)
    rw [hsk]
    rw [show hasPre "&&".data ('&' :: '&' :: ' ' :: c) = true from rfl]
    rw [if_pos rfl]
    rw [show ('&' :: '&' :: ' ' :: c).drop 2 = ' ' :: c from rfl]
    rw [skipWS_space, skipWS_atom_nil rc c rc' hc]
    rw [parseUnary_atom_nil rc c rc' hc (f + 3)]
    dsimp only
    exact parseAndLoop_exit rc (f + 3) _ [] (by rfl)
  rw [hA]
  dsimp only
  exact parseOrLoop_exit rc (f + 5) _ [] (by rfl)

/-- Dropping while the predicate fails at the head keeps the list. -/
theorem dropWhile_head_false (pr : Char → Bool) (l : List Char)
    (h : match l with | [] => True | c :: _ => pr c = false) :
    l.dropWhile pr = l := by
  cases l with
  | nil => rfl
  | cons c t =>
      rw [List.dropWhile_cons]
      rw [show pr c = false from h]
      simp

/-- Trimming does nothing when both ends are non-whitespace. -/
theorem trimL_eq_self (l : List Char)
    (hh : match l with | [] => True | c :: _ => isWS c = false)
    (hl : match l.getLast? with | none => True | some c => isWS c = false) :
    trimL l = l := by
  unfold trimL
  rw [dropWhile_head_false isWS l hh]
  have hrv : l.reverse.dropWhile isWS = l.reverse := by
    refine dropWhile_head_false isWS l.reverse ?_
    cases hrev : l.reverse with
    | nil => exact trivial
    | cons c t =>
        have hlast : l.getLast? = some c := by
          rw [← List.head?_reverse, hrev]
          rfl
        rw [hlast] at hl
        exact hl
  rw [hrv, List.reverse_reverse]

/-- An atom is nonempty. -/
theorem ruleAtom_ne_nil (rc : String → Bool) (s : List Char) (r : Rule)
    (ha : RuleAtom rc s r) : s ≠ [] := by
  obtain ⟨-, hh, -⟩ := ha
  cases s with
  | nil => exact hh.elim
  | cons c t => simp

/-- An atom's last character is not whitespace. -/
theorem ruleAtom_last (rc : String → Bool) (s : List Char) (r : Rule)
    (ha : RuleAtom rc s r) :
    match s.getLast? with | none => True | some c => isWS c = false := by
  obtain ⟨-, -, h3⟩ := ha
  cases hgl : s.getLast? with
  | none => exact trivial
  | some c =>
      rw [hgl] at h3
      exact h3

/-- C3 -/
theorem rule_operator_precedence (rc : String → Bool) (a b c : List Char)
    (ra rb rc' : Rule) (ha : RuleAtom rc a ra) (hb : RuleAtom rc b rb)
    (hc : RuleAtom rc c rc') :
    parseRuleL rc
        (a ++ (' ' :: '|' :: '|' :: ' ' :: (b ++ (' ' :: '&' :: '&' :: ' ' :: c)))) =
      .ok (.or ra (.and rb rc')) ∧
    parseRuleL rc ('!' :: (a ++ (' ' :: '&' :: '&' :: ' ' :: b))) =
      .ok (.and (.not ra) rb) ∧
    parseRuleL rc
        ('(' :: (a ++ (' ' :: '|' :: '|' :: ' ' ::
          (b ++ (')' :: ' ' :: '&' :: '&' :: ' ' :: c))))) =
      .ok (.and (.or ra rb) rc') ∧
    (∀ (rm : String → String → Bool) (req : Request),
      Rule.eval rm (.or ra (.and rb rc')) req =
        (ra.eval rm req || (rb.eval rm req && rc'.eval rm req)) ∧
      Rule.eval rm (.and (.not ra) rb) req = ((!ra.eval rm req) && rb.eval rm req) ∧
      Rule.eval rm (.and (.or ra rb) rc') req =
        ((ra.eval rm req || rb.eval rm req) && rc'.eval rm req)) := by
  refine ⟨?_, ?_, ?_, fun rm req => ⟨rfl, rfl, rfl⟩⟩
  · have htrim : trimL (a ++ (' ' :: '|' :: '|' :: ' ' ::
        (b ++ (' ' :: '&' :: '&' :: ' ' :: c)))) =
        a ++ (' ' :: '|' :: '|' :: ' ' :: (b ++ (' ' :: '&' :: '&' :: ' ' :: c))) := by
      refine trimL_eq_self _ ?_ ?_
      · obtain ⟨-, hh, -⟩ := ha
        cases a with
        | nil => exact hh.elim
        | cons c0 t => exact hh.1
      · have hgl : (a ++ (' ' :: '|' :: '|' :: ' ' ::
            (b ++ (' ' :: '&' :: '&' :: ' ' :: c)))).getLast? = c.getLast? := by
          rw [List.getLast?_append_of_ne_nil _ (by simp)]
          rw [show (' ' :: '|' :: '|' :: ' ' :: (b ++ (' ' :: '&' :: '&' :: ' ' :: c))) =
            [' ', '|', '|', ' '] ++ (b ++ ([' ', '&', '&', ' '] ++ c)) from rfl]
          rw [List.getLast?_append_of_ne_nil _ (by simp)]
          rw [List.getLast?_append_of_ne_nil _ (by simp)]
          rw [List.getLast?_append_of_ne_nil _ (ruleAtom_ne_nil rc c rc' hc)]
        rw [hgl]
        exact ruleAtom_last rc c rc' hc
    show (match parseOrL rc
        (3 * (trimL (a ++ (' ' :: '|' :: '|' :: ' ' ::
          (b ++ (' ' :: '&' :: '&' :: ' ' :: c))))).length + 8)
        (trimL (a ++ (' ' :: '|' :: '|' :: ' ' ::
          (b ++ (' ' :: '&' :: '&' :: ' ' :: c))))) with
      | Except.error e => Except.error e
      | Except.ok (r, _) => Except.ok r) = Except.ok (Rule.or ra (Rule.and rb rc'))
    rw [htrim]
    rw [show parseOrL rc
        (3 * (a ++ (' ' :: '|' :: '|' :: ' ' ::
          (b ++ (' ' :: '&' :: '&' :: ' ' :: c)))).length + 8)
        (a ++ (' ' :: '|' :: '|' :: ' ' :: (b ++ (' ' :: '&' :: '&' :: ' ' :: c)))) =
        .ok (.or ra (.and rb rc'), []) from
      parseOr_precedence_or_and rc a b c ra rb rc' ha hb hc
        (3 * (a ++ (' ' :: '|' :: '|' :: ' ' ::
          (b ++ (' ' :: '&' :: '&' :: ' ' :: c)))).length + 3)]
  · have htrim : trimL ('!' :: (a ++ (' ' :: '&' :: '&' :: ' ' :: b))) =
        '!' :: (a ++ (' ' :: '&' :: '&' :: ' ' :: b)) := by
      refine trimL_eq_self _ (by show isWS '!' = false; decide) ?_
      have hgl : ('!' :: (a ++ (' ' :: '&' :: '&' :: ' ' :: b))).getLast? =
          b.getLast? := by
        rw [show ('!' :: (a ++ (' ' :: '&' :: '&' :: ' ' :: b))) =
          ['!'] ++ (a ++ ([' ', '&', '&', ' '] ++ b)) from rfl]
        rw [List.getLast?_append_of_ne_nil _ (by simp)]
        rw [List.getLast?_append_of_ne_nil _ (by simp)]
        rw [List.getLast?_append_of_ne_nil _ (ruleAtom_ne_nil rc b rb hb)]
      rw [hgl]
      exact ruleAtom_last rc b rb hb
    show (match parseOrL rc
        (3 * (trimL ('!' :: (a ++ (' ' :: '&' :: '&' :: ' ' :: b)))).length + 8)
        (trimL ('!' :: (a ++ (' ' :: '&' :: '&' :: ' ' :: b)))) with
      | Except.error e => Except.error e
      | Except.ok (r, _) => Except.ok r) = Except.ok (Rule.and (Rule.not ra) rb)
    rw [htrim]
    rw [show parseOrL rc
        (3 * ('!' :: (a ++ (' ' :: '&' :: '&' :: ' ' :: b))).length + 8)
        ('!' :: (a ++ (' ' :: '&' :: '&' :: ' ' :: b))) =
        .ok (.and (.not ra) rb, []) from
      parseOr_precedence_not_and rc a b ra rb ha hb
        (3 * ('!' :: (a ++ (' ' :: '&' :: '&' :: ' ' :: b))).length + 4)]
  · have htrim : trimL ('(' :: (a ++ (' ' :: '|' :: '|' :: ' ' ::
        (b ++ (')' :: ' ' :: '&' :: '&' :: ' ' :: c))))) =
        '(' :: (a ++ (' ' :: '|' :: '|' :: ' ' ::
          (b ++ (')' :: ' ' :: '&' :: '&' :: ' ' :: c)))) := by
      refine trimL_eq_self _ (by show isWS '(' = false; decide) ?_
      have hgl : ('(' :: (a ++ (' ' :: '|' :: '|' :: ' ' ::
          (b ++ (')' :: ' ' :: '&' :: '&' :: ' ' :: c))))).getLast? = c.getLast? := by
        rw [show ('(' :: (a ++ (' ' :: '|' :: '|' :: ' ' ::
          (b ++ (')' :: ' ' :: '&' :: '&' :: ' ' :: c))))) =
          ['('] ++ (a ++ ([' ', '|', '|', ' '] ++
            (b ++ ([')', ' ', '&', '&', ' '] ++ c)))) from rfl]
        rw [List.getLast?_append_of_ne_nil _ (by simp)]
        rw [List.getLast?_append_of_ne_nil _ (by simp)]
        rw [List.getLast?_append_of_ne_nil _ (by simp)]
        rw [List.getLast?_append_of_ne_nil _ (by simp)]
        rw [List.getLast?_append_of_ne_nil _ (ruleAtom_ne_nil rc c rc' hc)]
      rw [hgl]
      exact ruleAtom_last rc c rc' hc
    show (match parseOrL rc
        (3 * (trimL ('(' :: (a ++ (' ' :: '|' :: '|' :: ' ' ::
          (b ++ (')' :: ' ' :: '&' :: '&' :: ' ' :: c)))))).length + 8)
        (trimL ('(' :: (a ++ (' ' :: '|' :: '|' :: ' ' ::
          (b ++ (')' :: ' ' :: '&' :: '&' :: ' ' :: c)))))) with
      | Except.error e => Except.error e
      | Except.ok (r, _) => Except.ok r) = Except.ok (Rule.and (Rule.or ra rb) rc')
    rw [htrim]
    rw [show parseOrL rc
        (3 * ('(' :: (a ++ (' ' :: '|' :: '|' :: ' ' ::
          (b ++ (')' :: ' ' :: '&' :: '&' :: ' ' :: c))))).length + 8)
        ('(' :: (a ++ (' ' :: '|' :: '|' :: ' ' ::
          (b ++ (')' :: ' ' :: '&' :: '&' :: ' ' :: c))))) =
        .ok (.and (.or ra rb) rc', []) from
      parseOr_precedence_paren rc a b c ra rb rc' ha hb hc
        (3 * ('(' :: (a ++ (' ' :: '|' :: '|' :: ' ' ::
          (b ++ (')' :: ' ' :: '&' :: '&' :: ' ' :: c))))).length + 1)]

/-- Any well-formed `Name{value}` matcher string is an atom. -/
theorem ruleAtom_of_matcher (rc : String → Bool) (name value : List Char) (r : Rule)
    (hn0 : name ≠ [])
    (hname : ∀ c ∈ name, isNameChar c = true ∧ isWS c = false)
    (hn1 : match name with | [] => True | c :: _ => c ≠ '!' ∧ c ≠ '(')
    (hv : ∀ c ∈ value, c ≠ '{' ∧ c ≠ '}')
    (hcm : createMatcher rc ⟨name⟩ ⟨value⟩ = .ok r) :
    RuleAtom rc (name ++ '{' :: (value ++ ['}'])) r := by
  refine ⟨?_, ?_, ?_⟩
  · intro rest
    have h0 := parseMatcher_atom rc name value r hn0 hname hv hcm rest
    rw [show (name ++ '{' :: (value ++ ['}'])) ++ rest =
      name ++ '{' :: (value ++ '}' :: rest) from by simp]
    exact h0
  · cases name with
    | nil => exact absurd rfl hn0
    | cons c0 n' =>
        exact ⟨(hname c0 (List.mem_cons_self c0 n')).2, hn1.1, hn1.2⟩
  · have hgl : (name ++ '{' :: (value ++ ['}'])).getLast? = some '}' := by
      rw [List.getLast?_append_of_ne_nil _ (by simp)]
      rw [show ('{' :: (value ++ ['}'])) = ['{'] ++ (value ++ ['}']) from rfl]
      rw [List.getLast?_append_of_ne_nil _ (by simp)]
      rw [List.getLast?_append_of_ne_nil _ (by simp)]
      rfl
    rw [hgl]
    show isWS '}' = false
    decide

/-- C3 witness: the three concrete rule strings of the claim parse to
the claimed derivations. -/
theorem rule_operator_precedence_witness :
    ParseRule (fun _ => true) "Host{a} || Header{k=v} && Method{GET}" =
      .ok (.or (.host "a") (.and (.headerEq "k" "v") (.method ["GET"]))) ∧
    ParseRule (fun _ => true) "!Host{a} && Header{k=v}" =
      .ok (.and (.not (.host "a")) (.headerEq "k" "v")) ∧
    ParseRule (fun _ => true) "(Host{a} || Header{k=v}) && Method{GET}" =
      .ok (.and (.or (.host "a") (.headerEq "k" "v")) (.method ["GET"])) := by
  have haH : RuleAtom (fun _ => true) "Host{a}".data (.host "a") :=
    ruleAtom_of_matcher (fun _ => true) "Host".data "a".data (.host "a")
      (by decide) (by decide) (by decide) (by decide) (by decide)
  have haB : RuleAtom (fun _ => true) "Header{k=v}".data (.headerEq "k" "v") :=
    ruleAtom_of_matcher (fun _ => true) "Header".data "k=v".data (.headerEq "k" "v")
      (by decide) (by decide) (by decide) (by decide) (by decide)
  have haC : RuleAtom (fun _ => true) "Method{GET}".data (.method ["GET"]) :=
    ruleAtom_of_matcher (fun _ => true) "Method".data "GET".data (.method ["GET"])
      (by decide) (by decide) (by decide) (by decide) (by decide)
  have h := rule_operator_precedence (fun _ => true)
    "Host{a}".data "Header{k=v}".data "Method{GET}".data
    (.host "a") (.headerEq "k" "v") (.method ["GET"]) haH haB haC
  exact ⟨h.1, h.2.1, h.2.2.1⟩

/-- Dropping whitespace absorbs an all-whitespace prefix. -/
theorem dropWhile_append_allWS (w l : List Char) (h : ∀ c ∈ w, isWS c = true) :
    (w ++ l).dropWhile isWS = l.dropWhile isWS := by
  induction w with
  | nil => rfl
  | cons c cs ih =>
      rw [List.cons_append, List.dropWhile_cons, h c (List.mem_cons_self c cs)]
      simp only [if_true]
      exact ih (fun d hd => h d (List.mem_cons_of_mem c hd))

/-- Skipping whitespace over an all-whitespace list yields nothing. -/
theorem skipWS_allWS_nil (w : List Char) (h : ∀ c ∈ w, isWS c = true) :
    skipWS w = [] := by
  have h0 := skipWS_append_allWS w [] h
  rw [List.append_nil] at h0
  rw [h0]
  rfl

/-- Trimming strips all-whitespace ends around a core with
non-whitespace boundary characters. -/
theorem trimL_ws_both (w1 w7 core : List Char)
    (hw1 : ∀ c ∈ w1, isWS c = true) (hw7 : ∀ c ∈ w7, isWS c = true)
    (hh : match core with | [] => True | c :: _ => isWS c = false)
    (hl : match core.getLast? with | none => True | some c => isWS c = false)
    (hne : core ≠ []) :
    trimL (w1 ++ (core ++ w7)) = core := by
  unfold trimL
  rw [dropWhile_append_allWS w1 (core ++ w7) hw1]
  have hcw : (core ++ w7).dropWhile isWS = core ++ w7 := by
    refine dropWhile_head_false isWS (core ++ w7) ?_
    cases core with
    | nil => exact absurd rfl hne
    | cons c t => exact hh
  rw [hcw]
  rw [List.reverse_append]
  rw [dropWhile_append_allWS w7.reverse core.reverse
    (fun c hc => hw7 c (List.mem_reverse.mp hc))]
  have hcr : core.reverse.dropWhile isWS = core.reverse := by
    refine dropWhile_head_false isWS core.reverse ?_
    cases hrev : core.reverse with
    | nil => exact trivial
    | cons c t =>
        have hlast : core.getLast? = some c := by
          rw [← List.head?_reverse, hrev]
          rfl
        rw [hlast] at hl
        exact hl
  rw [hcr, List.reverse_reverse]

/-- The matcher parser also tolerates a gap between the name and the
opening brace when the gap begins with a space. -/
theorem parseMatcher_atom_gap (rc : String → Bool) (name value : List Char) (r : Rule)
    (hn0 : name ≠ [])
    (hname : ∀ c ∈ name, isNameChar c = true ∧ isWS c = false)
    (hv : ∀ c ∈ value, c ≠ '{' ∧ c ≠ '}')
    (hcm : createMatcher rc ⟨name⟩ ⟨value⟩ = .ok r)
    (g : List Char) (hg : g = [] ∨ ∃ g', g = ' ' :: g' ∧ ∀ c ∈ g', isWS c = true) :
    ∀ rest, parseMatcherL rc (name ++ (g ++ '{' :: (value ++ '}' :: rest))) =
      .ok (r, rest) := by
  intro rest
  rcases hg with hg | ⟨g', hg, hg'⟩
  · rw [hg, List.nil_append]
    exact parseMatcher_atom rc name value r hn0 hname hv hcm rest
  · rw [hg]
    obtain ⟨c0, name', rfl⟩ : ∃ c0 name', name = c0 :: name' := by
      cases name with
      | nil => exact absurd rfl hn0
      | cons c0 name' => exact ⟨c0, name', rfl⟩
    have hskip : skipWS ((c0 :: name') ++ (' ' :: g' ++ '{' :: (value ++ '}' :: rest))) =
        (c0 :: name') ++ (' ' :: g' ++ '{' :: (value ++ '}' :: rest)) := by
      rw [List.cons_append]
      exact skipWS_cons_not _ _ (hname c0 (List.mem_cons_self c0 name')).2
    have hspan := takeWhile_append_stop isNameChar (c0 :: name') ' '
      (g' ++ '{' :: (value ++ '}' :: rest)) (fun c hc => (hname c hc).1) (by decide)
    unfold parseMatcherL
    simp only []
    rw [hskip]
    rw [show (c0 :: name') ++ (' ' :: g' ++ '{' :: (value ++ '}' :: rest)) =
      (c0 :: name') ++ ' ' :: (g' ++ '{' :: (value ++ '}' :: rest)) from by simp]
    rw [hspan.1, hspan.2]
    rw [if_neg (by simp)]
    rw [skipWS_space, skipWS_append_allWS g' _ hg']
    rw [skipWS_cons_not _ _ (by decide)]
    have hmc : matchCharL '{' ('{' :: (value ++ '}' :: rest)) = true := rfl
    rw [hmc, if_pos rfl]
    show (match scanValue 1 (value ++ '}' :: rest) with
          | none => Except.error "unmatched braces"
          | some (value, rest) =>
              match createMatcher rc ⟨c0 :: name'⟩ ⟨value⟩ with
              | .error e => .error e
              | .ok r => .ok (r, rest)) = .ok (r, rest)
    rw [scanValue_closes value rest hv]
    dsimp only
    rw [hcm]

/-- Skipping whitespace keeps a list whose head is not whitespace. -/
theorem skipWS_head_not (l : List Char)
    (h : match l with | [] => True | c :: _ => isWS c = false) : skipWS l = l := by
  cases l with
  | nil => rfl
  | cons c t => exact skipWS_cons_not c t h

/-- The full walk of the whitespace-insertion template
`! ( Host {a} && Path{/p} ) || Method{GET}` with arbitrary parser
whitespace at every token boundary and a space-led gap before the Host
brace. -/
theorem parseOr_ws_template (rc : String → Bool) (w2 w3 w4 w5 w6 w8 w9 g : List Char)
    (hw2 : ∀ c ∈ w2, isWS c = true) (hw3 : ∀ c ∈ w3, isWS c = true)
    (hw4 : ∀ c ∈ w4, isWS c = true) (hw5 : ∀ c ∈ w5, isWS c = true)
    (hw6 : ∀ c ∈ w6, isWS c = true) (hw8 : ∀ c ∈ w8, isWS c = true)
    (hw9 : ∀ c ∈ w9, isWS c = true)
    (hg : g = [] ∨ ∃ g', g = ' ' :: g' ∧ ∀ c ∈ g', isWS c = true)
    (methodin tail3 rest2 pathin rest1 hostin inner core : List Char)
    (hmethodin : methodin = "Method".data ++ '{' :: 'G' :: 'E' :: 'T' :: '}' :: [])
    (htail3 : tail3 = w8 ++ '|' :: '|' :: (w9 ++ methodin))
    (hrest2 : rest2 = w6 ++ ')' :: tail3)
    (hpathin : pathin = "Path".data ++ '{' :: '/' :: 'p' :: '}' :: rest2)
    (hrest1 : rest1 = w4 ++ '&' :: '&' :: (w5 ++ pathin))
    (hhostin : hostin = "Host".data ++ (g ++ '{' :: 'a' :: '}' :: rest1))
    (hinner : inner = w3 ++ hostin)
    (hcore : core = '!' :: (w2 ++ '(' :: inner))
    (f : Nat) :
    parseOrL rc (f + 8) core =
      .ok (.or (.not (.and (.host "a") (.pathExact "/p"))) (.method ["GET"]), []) := by
  have hsk_host : skipWS hostin = hostin := by
    rw [hhostin]
    exact skipWS_head_not _ ((by decide : isWS 'H' = false))
  have hmat : parseMatcherL rc hostin = .ok (.host "a", rest1) := by
    rw [hhostin]
    exact parseMatcher_atom_gap rc "Host".data ['a'] (.host "a") (by decide)
      (by decide) (by decide) rfl g hg rest1
  have hu2 : parseUnaryL rc (f + 2) hostin = .ok (.host "a", rest1) := by
    rw [parseUnaryL_stepAt rc (f + 2) (f + 1) rfl]
    rw [hsk_host]
    rw [show matchCharL '!' hostin = false from by rw [hhostin]; rfl]
    rw [if_neg (by decide)]
    rw [show matchCharL '(' hostin = false from by rw [hhostin]; rfl]
    rw [if_neg (by decide)]
    exact hmat
  have hskr2 : skipWS rest2 = ')' :: tail3 := by
    rw [hrest2, skipWS_append_allWS w6 _ hw6]
    exact skipWS_cons_not _ _ (by decide)
  have hand3 : parseAndL rc (f + 3) hostin =
      .ok (.and (.host "a") (.pathExact "/p"), ')' :: tail3) := by
    rw [parseAndL_stepAt rc (f + 3) (f + 2) rfl]
    rw [hu2]
    dsimp only
    rw [parseAndLoop_stepAt rc (f + 2) (f + 1) rfl]
    have hskr1 : skipWS rest1 = '&' :: '&' :: (w5 ++ pathin) := by
      rw [hrest1, skipWS_append_allWS w4 _ hw4]
      exact skipWS_cons_not _ _ (by decide)
    rw [hskr1]
    rw [show hasPre "&&".data ('&' :: '&' :: (w5 ++ pathin)) = true from rfl]
    rw [if_pos rfl]
    rw [show ('&' :: '&' :: (w5 ++ pathin)).drop 2 = w5 ++ pathin from rfl]
    have hskp : skipWS (w5 ++ pathin) = pathin := by
      rw [skipWS_append_allWS w5 _ hw5, hpathin]
      exact skipWS_head_not _ ((by decide : isWS 'P' = false))
    rw [hskp]
    have hmatp : parseMatcherL rc pathin = .ok (.pathExact "/p", rest2) := by
      rw [hpathin]
      exact parseMatcher_atom rc "Path".data ['/', 'p'] (.pathExact "/p")
        (by decide) (by decide) (by decide) rfl rest2
    have hup : parseUnaryL rc (f + 1) pathin = .ok (.pathExact "/p", rest2) := by
      rw [parseUnaryL_stepAt rc (f + 1) f rfl]
      rw [show skipWS pathin = pathin from by
        rw [hpathin]; exact skipWS_head_not _ ((by decide : isWS 'P' = false))]
      rw [show matchCharL '!' pathin = false from by rw [hpathin]; rfl]
      rw [if_neg (by decide)]
      rw [show matchCharL '(' pathin = false from by rw [hpathin]; rfl]
      rw [if_neg (by decide)]
      exact hmatp
    rw [hup]
    dsimp only
    have h0 := parseAndLoop_exit rc f (.and (.host "a") (.pathExact "/p")) rest2
      (by rw [hskr2]; rfl)
    rw [hskr2] at h0
    exact h0
  have hor4 : parseOrL rc (f + 4) hostin =
      .ok (.and (.host "a") (.pathExact "/p"), ')' :: tail3) := by
    rw [parseOrL_stepAt rc (f + 4) (f + 3) rfl]
    rw [hand3]
    dsimp only
    have h0 := parseOrLoop_exit rc (f + 2) (.and (.host "a") (.pathExact "/p"))
      (')' :: tail3) (by rw [skipWS_cons_not ')' tail3 (by decide)]; rfl)
    rw [skipWS_cons_not ')' tail3 (by decide)] at h0
    exact h0
  have hu5 : parseUnaryL rc (f + 5) ('(' :: inner) =
      .ok (.and (.host "a") (.pathExact "/p"), tail3) := by
    rw [parseUnaryL_stepAt rc (f + 5) (f + 4) rfl]
    rw [show skipWS ('(' :: inner) = '(' :: inner from skipWS_cons_not _ _ (by decide)]
    rw [show matchCharL '!' ('(' :: inner) = false from rfl]
    rw [if_neg (by decide)]
    rw [show matchCharL '(' ('(' :: inner) = true from rfl]
    rw [if_pos rfl]
    rw [show ('(' :: inner).drop 1 = inner from rfl]
    have hski : skipWS inner = hostin := by
      rw [hinner, skipWS_append_allWS w3 _ hw3]
      exact hsk_host
    rw [hski]
    rw [hor4]
    dsimp only
    rw [skipWS_cons_not ')' tail3 (by decide)]
    rw [show matchCharL ')' (')' :: tail3) = true from rfl]
    rw [if_pos rfl]
    rfl
  have hu6 : parseUnaryL rc (f + 6) core =
      .ok (.not (.and (.host "a") (.pathExact "/p")), tail3) := by
    rw [hcore]
    rw [parseUnaryL_stepAt rc (f + 6) (f + 5) rfl]
    rw [show skipWS ('!' :: (w2 ++ '(' :: inner)) = '!' :: (w2 ++ '(' :: inner) from
      skipWS_cons_not _ _ (by decide)]
    rw [show matchCharL '!' ('!' :: (w2 ++ '(' :: inner)) = true from rfl]
    rw [if_pos rfl]
    rw [show ('!' :: (w2 ++ '(' :: inner)).drop 1 = w2 ++ '(' :: inner from rfl]
    rw [show skipWS (w2 ++ '(' :: inner) = '(' :: inner from by
      rw [skipWS_append_allWS w2 _ hw2]
      exact skipWS_cons_not _ _ (by decide)]
    rw [hu5]
  have hsk3 : skipWS tail3 = '|' :: '|' :: (w9 ++ methodin) := by
    rw [htail3, skipWS_append_allWS w8 _ hw8]
    exact skipWS_cons_not _ _ (by decide)
  rw [parseOrL_stepAt rc (f + 8) (f + 7) rfl]
  have hand7 : parseAndL rc (f + 7) core =
      .ok (.not (.and (.host "a") (.pathExact "/p")), '|' :: '|' :: (w9 ++ methodin)) := by
    rw [parseAndL_stepAt rc (f + 7) (f + 6) rfl]
    rw [hu6]
    dsimp only
    have h0 := parseAndLoop_exit rc (f + 5) (.not (.and (.host "a") (.pathExact "/p")))
      tail3 (by rw [hsk3]; rfl)
    rw [hsk3] at h0
    exact h0
  rw [hand7]
  dsimp only
  rw [parseOrLoop_stepAt rc (f + 7) (f + 6) rfl]
  rw [skipWS_cons_not '|' ('|' :: (w9 ++ methodin)) (by decide)]
  rw [show hasPre "||".data ('|' :: '|' :: (w9 ++ methodin)) = true from rfl]
  rw [if_pos rfl]
  rw [show ('|' :: '|' :: (w9 ++ methodin)).drop 2 = w9 ++ methodin from rfl]
  have hskm : skipWS (w9 ++ methodin) = methodin := by
    rw [skipWS_append_allWS w9 _ hw9, hmethodin]
    exact skipWS_head_not _ ((by decide : isWS 'M' = false))
  rw [hskm]
  have hmatm : parseMatcherL rc methodin = .ok (.method ["GET"], []) := by
    rw [hmethodin]
    exact parseMatcher_atom rc "Method".data ['G', 'E', 'T'] (.method ["GET"])
      (by decide) (by decide) (by decide) rfl []
  have hum : parseUnaryL rc (f + 5) methodin = .ok (.method ["GET"], []) := by
    rw [parseUnaryL_stepAt rc (f + 5) (f + 4) rfl]
    rw [show skipWS methodin = methodin from by
      rw [hmethodin]; exact skipWS_head_not _ ((by decide : isWS 'M' = false))]
    rw [show matchCharL '!' methodin = false from by rw [hmethodin]; rfl]
    rw [if_neg (by decide)]
    rw [show matchCharL '(' methodin = false from by rw [hmethodin]; rfl]
    rw [if_neg (by decide)]
    exact hmatm
  have handm : parseAndL rc (f + 6) methodin = .ok (.method ["GET"], []) := by
    rw [parseAndL_stepAt rc (f + 6) (f + 5) rfl]
    rw [hum]
    dsimp only
    exact parseAndLoop_exit rc (f + 4) (.method ["GET"]) [] (by rfl)
  rw [handm]
  dsimp only
  exact parseOrLoop_exit rc (f + 5)
    (.or (.not (.and (.host "a") (.pathExact "/p"))) (.method ["GET"])) [] (by rfl)

/-- C9 counterexample: a space between a matcher name and its opening
brace is accepted, but replacing it by a tab makes the tab part of the
scanned name and the parse fail, so whitespace between those two tokens
is not uniformly ignored. -/
theorem rule_whitespace_tab_counterexample :
    ParseRule (fun _ => true) "Host {a}" = .ok (.host "a") ∧
    ParseRule (fun _ => true) "Host\t{a}" = .error "unknown matcher: Host\t" :=
  ⟨by decide, by decide⟩

/-- C9 amended: spaces, tabs, newlines and carriage returns are ignored
before the rule and after it, after the negation and opening-parenthesis
tokens, before a closing parenthesis, and around the conjunction and
disjunction operators; the gap between a matcher name and its opening
brace is ignored only when it is empty or begins with a space (any
whitespace may follow that space); a tab, newline or carriage return
directly after the name becomes part of the name and the parse fails. -/
theorem rule_whitespace_insensitivity (rc : String → Bool)
    (w1 w2 w3 w4 w5 w6 w7 w8 w9 g : List Char)
    (hw1 : ∀ c ∈ w1, isWS c = true) (hw2 : ∀ c ∈ w2, isWS c = true)
    (hw3 : ∀ c ∈ w3, isWS c = true) (hw4 : ∀ c ∈ w4, isWS c = true)
    (hw5 : ∀ c ∈ w5, isWS c = true) (hw6 : ∀ c ∈ w6, isWS c = true)
    (hw7 : ∀ c ∈ w7, isWS c = true) (hw8 : ∀ c ∈ w8, isWS c = true)
    (hw9 : ∀ c ∈ w9, isWS c = true)
    (hg : g = [] ∨ ∃ g', g = ' ' :: g' ∧ ∀ c ∈ g', isWS c = true) :
    parseRuleL rc (w1 ++ ('!' :: (w2 ++ '(' :: (w3 ++ ("Host".data ++ (g ++ '{' :: 'a' :: '}' :: (w4 ++ '&' :: '&' :: (w5 ++ ("Path".data ++ '{' :: '/' :: 'p' :: '}' :: (w6 ++ ')' :: (w8 ++ '|' :: '|' :: (w9 ++ ("Method".data ++ '{' :: 'G' :: 'E' :: 'T' :: '}' :: w7))))))))))))) = .ok (.or (.not (.and (.host "a") (.pathExact "/p"))) (.method ["GET"])) ∧
    ParseRule rc "Host\t{a}" = .error "unknown matcher: Host\t" := by
  constructor
  · have hcl : ('!' :: (w2 ++ '(' :: (w3 ++ ("Host".data ++ (g ++ '{' :: 'a' :: '}' :: (w4 ++ '&' :: '&' :: (w5 ++ ("Path".data ++ '{' :: '/' :: 'p' :: '}' :: (w6 ++ ')' :: (w8 ++ '|' :: '|' :: (w9 ++ ("Method".data ++ '{' :: 'G' :: 'E' :: 'T' :: '}' :: [])))))))))))) = ('!' :: (w2 ++ '(' :: (w3 ++ ("Host".data ++ (g ++ '{' :: 'a' :: '}' :: (w4 ++ '&' :: '&' :: (w5 ++ ("Path".data ++ '{' :: '/' :: 'p' :: '}' :: (w6 ++ ')' :: (w8 ++ '|' :: '|' :: (w9 ++ ("Method".data ++ '{' :: 'G' :: 'E' :: 'T' :: [])))))))))))) ++ ['}'] := by
      simp only [List.append_assoc, List.cons_append, List.singleton_append,
        List.nil_append]
    have heq : (w1 ++ ('!' :: (w2 ++ '(' :: (w3 ++ ("Host".data ++ (g ++ '{' :: 'a' :: '}' :: (w4 ++ '&' :: '&' :: (w5 ++ ("Path".data ++ '{' :: '/' :: 'p' :: '}' :: (w6 ++ ')' :: (w8 ++ '|' :: '|' :: (w9 ++ ("Method".data ++ '{' :: 'G' :: 'E' :: 'T' :: '}' :: w7))))))))))))) = w1 ++ (('!' :: (w2 ++ '(' :: (w3 ++ ("Host".data ++ (g ++ '{' :: 'a' :: '}' :: (w4 ++ '&' :: '&' :: (w5 ++ ("Path".data ++ '{' :: '/' :: 'p' :: '}' :: (w6 ++ ')' :: (w8 ++ '|' :: '|' :: (w9 ++ ("Method".data ++ '{' :: 'G' :: 'E' :: 'T' :: '}' :: [])))))))))))) ++ w7) := by
      simp only [List.append_assoc, List.cons_append, List.singleton_append,
        List.nil_append]
    have htrim : trimL (w1 ++ ('!' :: (w2 ++ '(' :: (w3 ++ ("Host".data ++ (g ++ '{' :: 'a' :: '}' :: (w4 ++ '&' :: '&' :: (w5 ++ ("Path".data ++ '{' :: '/' :: 'p' :: '}' :: (w6 ++ ')' :: (w8 ++ '|' :: '|' :: (w9 ++ ("Method".data ++ '{' :: 'G' :: 'E' :: 'T' :: '}' :: w7))))))))))))) = ('!' :: (w2 ++ '(' :: (w3 ++ ("Host".data ++ (g ++ '{' :: 'a' :: '}' :: (w4 ++ '&' :: '&' :: (w5 ++ ("Path".data ++ '{' :: '/' :: 'p' :: '}' :: (w6 ++ ')' :: (w8 ++ '|' :: '|' :: (w9 ++ ("Method".data ++ '{' :: 'G' :: 'E' :: 'T' :: '}' :: [])))))))))))) := by
      rw [heq]
      refine trimL_ws_both w1 w7 _ hw1 hw7 ((by decide : isWS '!' = false)) ?_ ?_
      · rw [hcl, List.getLast?_concat]
        exact (by decide : isWS '}' = false)
      · exact List.cons_ne_nil _ _
    show (match parseOrL rc (3 * (trimL (w1 ++ ('!' :: (w2 ++ '(' :: (w3 ++ ("Host".data ++ (g ++ '{' :: 'a' :: '}' :: (w4 ++ '&' :: '&' :: (w5 ++ ("Path".data ++ '{' :: '/' :: 'p' :: '}' :: (w6 ++ ')' :: (w8 ++ '|' :: '|' :: (w9 ++ ("Method".data ++ '{' :: 'G' :: 'E' :: 'T' :: '}' :: w7)))))))))))))).length + 8) (trimL (w1 ++ ('!' :: (w2 ++ '(' :: (w3 ++ ("Host".data ++ (g ++ '{' :: 'a' :: '}' :: (w4 ++ '&' :: '&' :: (w5 ++ ("Path".data ++ '{' :: '/' :: 'p' :: '}' :: (w6 ++ ')' :: (w8 ++ '|' :: '|' :: (w9 ++ ("Method".data ++ '{' :: 'G' :: 'E' :: 'T' :: '}' :: w7)))))))))))))) with
      | Except.error e => Except.error e
      | Except.ok (r, _) => Except.ok r) = Except.ok (Rule.or (Rule.not (Rule.and (Rule.host "a") (Rule.pathExact "/p"))) (Rule.method ["GET"]))
    rw [htrim]
    rw [show parseOrL rc (3 * ('!' :: (w2 ++ '(' :: (w3 ++ ("Host".data ++ (g ++ '{' :: 'a' :: '}' :: (w4 ++ '&' :: '&' :: (w5 ++ ("Path".data ++ '{' :: '/' :: 'p' :: '}' :: (w6 ++ ')' :: (w8 ++ '|' :: '|' :: (w9 ++ ("Method".data ++ '{' :: 'G' :: 'E' :: 'T' :: '}' :: [])))))))))))).length + 8) ('!' :: (w2 ++ '(' :: (w3 ++ ("Host".data ++ (g ++ '{' :: 'a' :: '}' :: (w4 ++ '&' :: '&' :: (w5 ++ ("Path".data ++ '{' :: '/' :: 'p' :: '}' :: (w6 ++ ')' :: (w8 ++ '|' :: '|' :: (w9 ++ ("Method".data ++ '{' :: 'G' :: 'E' :: 'T' :: '}' :: [])))))))))))) =
        .ok (.or (.not (.and (.host "a") (.pathExact "/p"))) (.method ["GET"]), []) from
      parseOr_ws_template rc w2 w3 w4 w5 w6 w8 w9 g hw2 hw3 hw4 hw5 hw6 hw8 hw9 hg
        ("Method".data ++ '{' :: 'G' :: 'E' :: 'T' :: '}' :: [])
        (w8 ++ '|' :: '|' :: (w9 ++ ("Method".data ++ '{' :: 'G' :: 'E' :: 'T' :: '}' :: [])))
        (w6 ++ ')' :: (w8 ++ '|' :: '|' :: (w9 ++ ("Method".data ++ '{' :: 'G' :: 'E' :: 'T' :: '}' :: []))))
        ("Path".data ++ '{' :: '/' :: 'p' :: '}' :: (w6 ++ ')' :: (w8 ++ '|' :: '|' :: (w9 ++ ("Method".data ++ '{' :: 'G' :: 'E' :: 'T' :: '}' :: [])))))
        (w4 ++ '&' :: '&' :: (w5 ++ ("Path".data ++ '{' :: '/' :: 'p' :: '}' :: (w6 ++ ')' :: (w8 ++ '|' :: '|' :: (w9 ++ ("Method".data ++ '{' :: 'G' :: 'E' :: 'T' :: '}' :: [])))))))
        ("Host".data ++ (g ++ '{' :: 'a' :: '}' :: (w4 ++ '&' :: '&' :: (w5 ++ ("Path".data ++ '{' :: '/' :: 'p' :: '}' :: (w6 ++ ')' :: (w8 ++ '|' :: '|' :: (w9 ++ ("Method".data ++ '{' :: 'G' :: 'E' :: 'T' :: '}' :: [])))))))))
        (w3 ++ ("Host".data ++ (g ++ '{' :: 'a' :: '}' :: (w4 ++ '&' :: '&' :: (w5 ++ ("Path".data ++ '{' :: '/' :: 'p' :: '}' :: (w6 ++ ')' :: (w8 ++ '|' :: '|' :: (w9 ++ ("Method".data ++ '{' :: 'G' :: 'E' :: 'T' :: '}' :: []))))))))))
        ('!' :: (w2 ++ '(' :: (w3 ++ ("Host".data ++ (g ++ '{' :: 'a' :: '}' :: (w4 ++ '&' :: '&' :: (w5 ++ ("Path".data ++ '{' :: '/' :: 'p' :: '}' :: (w6 ++ ')' :: (w8 ++ '|' :: '|' :: (w9 ++ ("Method".data ++ '{' :: 'G' :: 'E' :: 'T' :: '}' :: []))))))))))))
        rfl rfl rfl rfl rfl rfl rfl rfl
        (3 * ('!' :: (w2 ++ '(' :: (w3 ++ ("Host".data ++ (g ++ '{' :: 'a' :: '}' :: (w4 ++ '&' :: '&' :: (w5 ++ ("Path".data ++ '{' :: '/' :: 'p' :: '}' :: (w6 ++ ')' :: (w8 ++ '|' :: '|' :: (w9 ++ ("Method".data ++ '{' :: 'G' :: 'E' :: 'T' :: '}' :: [])))))))))))).length)]
  · rfl

/-- C9 witness: a concrete rule with a space, tab, newline and carriage
return inserted at every tolerated position, including around both the
conjunction and the disjunction operators, parses to the same tree as
its compact form. -/
theorem rule_whitespace_insensitivity_witness :
    ParseRule (fun _ => true) " !\t(\nHost \t{a}\r&&  Path{/p}\t)\n||\r Method{GET} " =
      .ok (.or (.not (.and (.host "a") (.pathExact "/p"))) (.method ["GET"])) :=
  (rule_whitespace_insensitivity (fun _ => true)
    [' '] ['\t'] ['\n'] ['\r'] [' ', ' '] ['\t'] [' '] ['\n'] ['\r', ' ']
    [' ', '\t']
    (by decide) (by decide) (by decide) (by decide) (by decide) (by decide)
    (by decide) (by decide) (by decide)
    (Or.inr ⟨['\t'], rfl, by decide⟩)).1

/-- A request carrying two canonical-key headers. -/
def reqHdrs : Request :=
  { method := "GET", host := "a", urlHost := "", path := "/", requestURI := "/"
  , query := []
  , headers := [("Accept", ["x", "y"]), ("X-Key", ["v"])]
  , tls := false }

/-- C7 witness: the port of `example.com:8080` is stripped, and the
copied outbound headers preserve both values of the `Accept` header,
looked up with a lowercase key. -/
theorem forward_host_and_headers_witness :
    hostHeaderForAddr ("example.com" ++ ":" ++ "8080") = "example.com" ∧
    headerValues (forwardRequest reqHdrs nodeA).headers "accept" =
      headerValues reqHdrs.headers "accept" :=
  ⟨(forward_host_and_headers reqHdrs nodeA "example.com" "8080" "accept").2.1
      (by decide) (by decide) (by decide) (by decide),
   (forward_host_and_headers reqHdrs nodeA "example.com" "8080" "accept").2.2.2
      (by decide) (by decide)⟩
